import Mathlib

/-!
# Doke-parser: shallow embedding and verification

This file embeds the core of the Doke sentence-grammar engine
(`src/parsers/sentence.rs`, `src/parsers/typed_sentences.rs`, `src/semantic.rs`)
into Lean 4 and settles the frozen claims about it.

Modelling conventions:
* Rust `String`/`&str` values are Lean `String`s; most character-level work is
  done on `List Char` (`String.data`).  All inputs in this development are
  ASCII, where Rust byte lengths and Lean char counts agree.
* Rust `HashMap<String, V>` is modelled as an association list
  (`List (String × V)`) whose `insert` replaces an existing binding in place;
  no claim depends on hash-map iteration order.
* Rust `f32`/`f64` *values* never matter to any claim: `f64` results are
  modelled by the token that was parsed (`GodotValue.float raw`), and `f32`
  confidence scores are modelled as rationals (the code only ever uses the
  constants `-1.0` and the default `1.0`).
* Compiled `regex::Regex` matchers are modelled as segment lists (`Seg`),
  produced by a faithful embedding of `build_regex_for_phrase`; matching is an
  anchored backtracking matcher equivalent (for existence of a match) to the
  regex semantics, since all produced patterns are pure regular expressions.
* `std::collections::hash_map::DefaultHasher` (used only to derive the
  translation key suffix) is std-library SipHash; no claim depends on the hash
  value, so the pipeline is parameterised by a `hash : String → Nat` argument
  and every theorem quantifies over it (counterexamples instantiate it).
* Recursion that Rust performs directly is modelled with explicit fuel where
  the Rust recursion is not structurally decreasing (`process_with_depth`
  recursion into constituents); `none` means the computation did not complete
  within the given fuel.
-/

/-! ## Basic character and string utilities -/

/-- Whitespace as recognised by Rust `char::is_whitespace` and the regex
class in the ASCII range (space, tab, newline, carriage return, vertical
tab, form feed).  All statements in this development are ASCII. -/
def isWsChar (c : Char) : Bool :=
  c = ' ' || c = '\t' || c = '\n' || c = '\r' || c = '\x0b' || c = '\x0c'

/-- ASCII decimal digit (regex `\d`, Rust `char::to_digit(10)`). -/
def isDigitChar (c : Char) : Bool :=
  '0' ≤ c && c ≤ '9'

/-- Binary digit (regex `[01]`). -/
def isBinChar (c : Char) : Bool :=
  c = '0' || c = '1'

/-- Octal digit (regex `[0-7]`). -/
def isOctChar (c : Char) : Bool :=
  '0' ≤ c && c ≤ '7'

/-- Hexadecimal digit (regex `[0-9a-fA-F]`). -/
def isHexChar (c : Char) : Bool :=
  isDigitChar c || ('a' ≤ c && c ≤ 'f') || ('A' ≤ c && c ≤ 'F')

/-- Numeric value of one digit char (matches `char::to_digit` on the digits
accepted above). -/
def digitVal (c : Char) : Nat :=
  if isDigitChar c then c.toNat - '0'.toNat
  else if 'a' ≤ c && c ≤ 'f' then c.toNat - 'a'.toNat + 10
  else if 'A' ≤ c && c ≤ 'F' then c.toNat - 'A'.toNat + 10
  else 0

/-- Value of a digit string in the given radix (most significant first). -/
def digitsVal (radix : Nat) (l : List Char) : Nat :=
  l.foldl (fun acc c => acc * radix + digitVal c) 0

/-- Rust `str::trim` on a char list: drop whitespace from both ends. -/
def trimChars (l : List Char) : List Char :=
  ((l.dropWhile isWsChar).reverse.dropWhile isWsChar).reverse

/-- `statement.trim().trim_end_matches(|c| ".:".contains(c))`
(sentence.rs, `process_with_depth`): trim whitespace, then drop *all*
trailing `.` and `:` characters. -/
def trimStatement (s : String) : String :=
  ⟨(((trimChars s.data).reverse.dropWhile (fun c => c = '.' || c = ':')).reverse)⟩

/-- Rust `str::trim` on strings. -/
def trimString (s : String) : String :=
  ⟨trimChars s.data⟩

/-- ASCII lowercase of one char (Rust `str::to_lowercase` on the ASCII
strings this code compares). -/
def lowerChar (c : Char) : Char :=
  if 'A' ≤ c && c ≤ 'Z' then Char.ofNat (c.toNat + 32) else c

/-- ASCII lowercase of a string. -/
def lowerString (s : String) : String :=
  ⟨s.data.map lowerChar⟩

/-! ## Association lists (model of `HashMap<String, V>`) -/

/-- Lookup in an association list (model of `HashMap::get`). -/
def alookup {α : Type} (l : List (String × α)) (k : String) : Option α :=
  match l with
  | [] => none
  | (k2, v) :: rest => if k2 = k then some v else alookup rest k

/-- Insert into an association list, replacing an existing binding in place
(model of `HashMap::insert`). -/
def ainsert {α : Type} (l : List (String × α)) (k : String) (v : α) :
    List (String × α) :=
  match l with
  | [] => [(k, v)]
  | (k2, v2) :: rest =>
      if k2 = k then (k2, v) :: rest else (k2, v2) :: ainsert rest k v

/-- Insert every binding of the second list (model of `HashMap::extend`). -/
def aextend {α : Type} (l adds : List (String × α)) : List (String × α) :=
  adds.foldl (fun acc kv => ainsert acc kv.1 kv.2) l

/-! ## Value model (`GodotValue`, semantic.rs) -/

/-- semantic.rs `GodotValue`.  `float` carries the token the value was parsed
from; no claim depends on floating-point arithmetic or equality. -/
inductive GodotValue : Type where
  | nil : GodotValue
  | bool (b : Bool) : GodotValue
  | int (i : Int) : GodotValue
  | float (raw : String) : GodotValue
  | string (s : String) : GodotValue
  | array (elems : List GodotValue) : GodotValue
  | dict (entries : List (String × GodotValue)) : GodotValue
  | resource (type_name : String) (fields : List (String × GodotValue)) :
      GodotValue

/-- Projection: the `Int` payload, if any. -/
def GodotValue.getInt : GodotValue → Option Int
  | .int i => some i
  | _ => none

/-- Projection: the `String` payload, if any. -/
def GodotValue.getString : GodotValue → Option String
  | .string s => some s
  | _ => none

/-- Projection: the `Bool` payload, if any. -/
def GodotValue.getBool : GodotValue → Option Bool
  | .bool b => some b
  | _ => none

/-- Projection: resource type name, if the value is a resource. -/
def GodotValue.resTypeName : GodotValue → Option String
  | .resource t _ => some t
  | _ => none

/-- Projection: resource fields, if the value is a resource. -/
def GodotValue.resFields : GodotValue → Option (List (String × GodotValue))
  | .resource _ fs => some fs
  | _ => none

/-! ## Primitive capture-group languages (sentence.rs `build_regex_for_phrase`)

The compiled capture group for each primitive type, read off the regex
fragments at sentence.rs lines 493-498:
* int:   `[-+]?(?:0[bB][01]+|0[oO][0-7]+|0[xX][0-9a-fA-F]+|\d+)`
* float: `[-+]?(?:\d+\.\d*|\.\d+|\d+)(?:[eE][-+]?\d+)?`
* bool:  `(true|false|yes|no|1|0)` (no case-insensitive flag)
Each language predicate below accepts exactly the strings the whole group
can capture. -/

/-- Drop one leading sign character, if present (regex `[-+]?`). -/
def dropSign (l : List Char) : List Char :=
  match l with
  | c :: rest => if c = '-' || c = '+' then rest else l
  | [] => l

/-- Whether the string starts with a sign character. -/
def hasSign (l : List Char) : Bool :=
  match l with
  | c :: _ => c = '-' || c = '+'
  | [] => false

/-- The radix-prefixed alternatives of the int capture group:
`0[bB][01]+ | 0[oO][0-7]+ | 0[xX][0-9a-fA-F]+`. -/
def radixBody (l : List Char) : Bool :=
  match l with
  | '0' :: b :: rest =>
      ((b = 'b' || b = 'B') && !rest.isEmpty && rest.all isBinChar) ||
      ((b = 'o' || b = 'O') && !rest.isEmpty && rest.all isOctChar) ||
      ((b = 'x' || b = 'X') && !rest.isEmpty && rest.all isHexChar)
  | _ => false

/-- Unsigned body of the int capture group:
`0[bB][01]+ | 0[oO][0-7]+ | 0[xX][0-9a-fA-F]+ | \d+`. -/
def intBody (l : List Char) : Bool :=
  radixBody l || (!l.isEmpty && l.all isDigitChar)

/-- The language of the compiled `int` capture group. -/
def intLang (l : List Char) : Bool :=
  intBody (dropSign l)

/-- Sign factor of a capture-group member: `-1` for a leading minus. -/
def signFactor (l : List Char) : Int :=
  match l with
  | '-' :: _ => -1
  | _ => 1

/-- Magnitude of the unsigned body of an int capture-group member: radix
digits after a radix marker, decimal digits otherwise. -/
def intMag (b : List Char) : Nat :=
  match b with
  | '0' :: c :: rest =>
      if c = 'b' || c = 'B' then digitsVal 2 rest
      else if c = 'o' || c = 'O' then digitsVal 8 rest
      else if c = 'x' || c = 'X' then digitsVal 16 rest
      else digitsVal 10 b
  | _ => digitsVal 10 b

/-- Mathematical value denoted by a member of the int capture-group
language (sign times the radix value of the digits). -/
def intLangVal (l : List Char) : Int :=
  signFactor l * intMag (dropSign l)

/-- Exponent tail of the float group: empty, or `[eE][-+]?\d+` to the end. -/
def expTail (l : List Char) : Bool :=
  match l with
  | [] => true
  | e :: rest =>
      (e = 'e' || e = 'E') &&
      (let d := dropSign rest
       !d.isEmpty && d.all isDigitChar)

/-- Unsigned mantissa alternatives of the float capture group:
`\.\d+ | \d+\.\d* | \d+`. -/
def mantissaOk (m : List Char) : Bool :=
  match m with
  | '.' :: frac => !frac.isEmpty && frac.all isDigitChar
  | _ =>
      (List.range m.length).any (fun j =>
        let ip := m.take j
        let rest := m.drop j
        decide (1 ≤ j) && ip.all isDigitChar &&
        (match rest with
         | '.' :: frac => frac.all isDigitChar
         | _ => false)) ||
      (!m.isEmpty && m.all isDigitChar)

/-- Unsigned body of the float capture group, via an explicit search over
the split between mantissa and exponent: a non-empty mantissa followed by
the optional exponent. -/
def floatBody (l : List Char) : Bool :=
  (List.range (l.length + 1)).any (fun k =>
    decide (1 ≤ k) && (mantissaOk (l.take k) && expTail (l.drop k)))

/-- The language of the compiled `float` capture group. -/
def floatLang (l : List Char) : Bool :=
  floatBody (dropSign l)

/-- The language of the compiled `bool` capture group: exactly the six
literal alternatives, case-sensitively. -/
def boolLang (l : List Char) : Bool :=
  let s : String := ⟨l⟩
  s = "true" || s = "false" || s = "yes" || s = "no" || s = "1" || s = "0"

/-! ## Rust primitive parsing (sentence.rs `parse_basic_parameter`) -/

/-- Smallest `i64` value. -/
def i64Min : Int := -(2 ^ 63)

/-- Largest `i64` value. -/
def i64Max : Int := 2 ^ 63 - 1

/-- Rust `i64::from_str_radix`: optional sign, one or more digits of the
radix, value within the `i64` range. -/
def fromStrRadix (radix : Nat) (isDig : Char → Bool) (l : List Char) :
    Option Int :=
  let d := dropSign l
  if !d.isEmpty && d.all isDig then
    let v : Int := signFactor l * digitsVal radix d
    if i64Min ≤ v && v ≤ i64Max then some v else none
  else none

/-- Rust `str::parse::<i64>()`: optional sign, decimal digits, in range. -/
def parseI64 (l : List Char) : Option Int :=
  fromStrRadix 10 isDigitChar l

/-- The decimal-number branch of the `f64` grammar on the unsigned body:
leading digits, then either a dot with more digits and an exponent, or an
exponent directly; at least one mantissa digit overall. -/
def decimalOk (b : List Char) : Bool :=
  let ds := b.takeWhile isDigitChar
  let r := b.drop ds.length
  match r with
  | '.' :: rr =>
      let fs := rr.takeWhile isDigitChar
      let r2 := rr.drop fs.length
      decide (0 < ds.length + fs.length) && expTail r2
  | _ => !ds.isEmpty && expTail r

/-- Rust `str::parse::<f64>()` accepted syntax (core dec2flt grammar):
optional sign, then `inf`/`infinity`/`nan` (any case) or a decimal number
with at least one mantissa digit and an optional well-formed exponent.
Only syntactic success is modelled; `f64` parsing never fails on range. -/
def rustF64Ok (l : List Char) : Bool :=
  let b := dropSign l
  let low : String := ⟨b.map lowerChar⟩
  low = "inf" || low = "infinity" || low = "nan" || decimalOk b

/-- sentence.rs `is_basic_type`: the four primitive type names,
case-insensitively. -/
def is_basic_type (param_type : String) : Bool :=
  let t := lowerString param_type
  t = "int" || t = "float" || t = "bool" || t = "string"

/-- Whether the char list starts with the two given prefix chars. -/
def startsWith2 (l : List Char) (a b : Char) : Bool :=
  match l with
  | x :: y :: _ => x = a && y = b
  | _ => false

/-- sentence.rs `parse_basic_parameter`: parse a captured raw string as the
declared primitive type.  `none` models the `Err` branch. -/
def parse_basic_parameter (value : String) (param_type : String) :
    Option GodotValue :=
  let t := lowerString param_type
  let l := value.data
  if t = "int" then
    if startsWith2 l '0' 'b' || startsWith2 l '0' 'B' then
      (fromStrRadix 2 isBinChar (l.drop 2)).map GodotValue.int
    else if startsWith2 l '0' 'o' || startsWith2 l '0' 'O' then
      (fromStrRadix 8 isOctChar (l.drop 2)).map GodotValue.int
    else if startsWith2 l '0' 'x' || startsWith2 l '0' 'X' then
      (fromStrRadix 16 isHexChar (l.drop 2)).map GodotValue.int
    else
      (parseI64 l).map GodotValue.int
  else if t = "float" then
    if rustF64Ok l then some (GodotValue.float value) else none
  else if t = "bool" then
    let lv := lowerString value
    if lv = "true" || lv = "yes" || lv = "1" then some (GodotValue.bool true)
    else if lv = "false" || lv = "no" || lv = "0" then
      some (GodotValue.bool false)
    else none
  else if t = "string" then
    some (GodotValue.string value)
  else none

/-! ## Template compilation (sentence.rs `build_regex_for_phrase`)

A compiled matcher is modelled as a list of segments; the whole list is
anchored (`^`...`$`).  `optWsCap` is the wrapper `(?:\s+G)?` that the code
builds when a parameter is marked optional. -/

/-- Capture-group kinds of the compiled pattern. -/
inductive CapKind : Type where
  | int : CapKind
  | float : CapKind
  | bool : CapKind
  | str : CapKind
deriving DecidableEq

/-- Which capture group a declared type compiles to
(sentence.rs lines 493-498; the default arm is the non-greedy `(.+?)`). -/
def capKindOf (param_type : String) : CapKind :=
  let t := lowerString param_type
  if t = "int" then .int
  else if t = "float" then .float
  else if t = "bool" then .bool
  else .str

/-- One segment of a compiled anchored pattern. -/
inductive Seg : Type where
  | lit (chars : List Char) : Seg
  | ws : Seg
  | cap (k : CapKind) : Seg
  | optWsCap (k : CapKind) : Seg
deriving DecidableEq

/-- sentence.rs `ParameterDefinition`. -/
structure ParameterDefinition : Type where
  name : String
  param_type : String
deriving DecidableEq

/-- One step of `push_literal`: append a literal char to a reversed segment
accumulator, collapsing contiguous whitespace into a single `\s+` and
keeping other chars literally (regex escaping of a literal char matches
exactly that char). -/
def pushLitChar (acc : List Seg) (c : Char) : List Seg :=
  if isWsChar c then
    match acc with
    | Seg.ws :: _ => acc
    | _ => Seg.ws :: acc
  else
    match acc with
    | Seg.lit l :: rest => Seg.lit (l ++ [c]) :: rest
    | _ => Seg.lit [c] :: acc

/-- Leftmost match of `param_re` = `\{([^}:]+)(?::([^}]+))?\}` at the head of
the input: returns (name chars, optional type chars, rest after `}`).
The name group `[^}:]+` is greedy and can contain neither `}` nor `:`;
the optional type group `[^}]+` is greedy and stops only at `}`. -/
def tryPlaceholder (l : List Char) : Option (List Char × Option (List Char) × List Char) :=
  match l with
  | c0 :: rest =>
      if c0 = '{' then
        let nm := rest.takeWhile (fun c => !(c = '}' || c = ':'))
        if nm.isEmpty then none
        else
          match rest.drop nm.length with
          | '}' :: tail => some (nm, none, tail)
          | ':' :: t2 =>
              let ty := t2.takeWhile (fun c => c ≠ '}')
              if ty.isEmpty then none
              else
                match t2.drop ty.length with
                | '}' :: tail => some (nm, some ty, tail)
                | _ => none
          | _ => none
      else none
  | [] => none

/-- Remove the last two chars of a string (the code strips a trailing `:?`
with `name[..name.len() - 2]`). -/
def dropLast2 (s : String) : String :=
  ⟨s.data.dropLast.dropLast⟩

/-- Rust `str::ends_with` on strings (char-list implementation). -/
def strEndsWith (s suffix : String) : Bool :=
  suffix.data.length ≤ s.data.length &&
    s.data.drop (s.data.length - suffix.data.length) == suffix.data

/-- Scanner core of `build_regex_for_phrase`: walk the template left to
right; literal chars go through `push_literal`, `param_re` matches become
capture groups.  `optional` is `name.ends_with(":?")` computed on the
trimmed name capture, exactly as in the source.  Fuel is at least the
number of remaining chars plus one; each step consumes at least one char. -/
def scanPhrase : Nat → List Seg → List ParameterDefinition → List Char →
    List Seg × List ParameterDefinition
  | 0, segs, ps, _ => (segs.reverse, ps.reverse)
  | _ + 1, segs, ps, [] => (segs.reverse, ps.reverse)
  | fuel + 1, segs, ps, c :: rest =>
      match tryPlaceholder (c :: rest) with
      | some (nm, tyOpt, tail) =>
          let name0 := trimString ⟨nm⟩
          let pty := match tyOpt with
            | some t => trimString ⟨t⟩
            | none => "string"
          let isOpt := strEndsWith name0 ":?"
          let name := if isOpt then dropLast2 name0 else name0
          let k := capKindOf pty
          let g : Seg := if isOpt then Seg.optWsCap k else Seg.cap k
          scanPhrase fuel (g :: segs) (⟨name, pty⟩ :: ps) tail
      | none => scanPhrase fuel (pushLitChar segs c) ps rest

/-- sentence.rs `build_regex_for_phrase`: compiled segments plus parameter
definitions, in capture order. -/
def build_regex_for_phrase (phrase : String) :
    List Seg × List ParameterDefinition :=
  scanPhrase (phrase.data.length + 1) [] [] phrase.data

/-! ## Matching (anchored, with captures) -/

/-- The language of one capture group.  The non-greedy default `(.+?)` is one
or more chars, where `.` excludes newline (regex crate default). -/
def capLang : CapKind → List Char → Bool
  | .int, l => intLang l
  | .float, l => floatLang l
  | .bool, l => boolLang l
  | .str, l => !l.isEmpty && l.all (fun c => c ≠ '\n')

/-- Candidate capture lengths in the order the regex engine prefers them:
greedy groups longest first, the non-greedy `(.+?)` shortest first. -/
def capCandidates (k : CapKind) (len : Nat) : List Nat :=
  match k with
  | .str => (List.range len).map (fun i => i + 1)
  | _ => (List.range len).map (fun i => len - i)

/-- Anchored matching of a segment list against a char list, returning the
captured text of each capture group in order (`none` for a skipped optional
group).  Backtracking over split points makes this equivalent, for success,
to the anchored regex; the preference order determines the captures, and in
every concrete input in this development the successful split is unique. -/
def matchSegs : List Seg → List Char → Option (List (Option (List Char)))
  | [], l => if l.isEmpty then some [] else none
  | Seg.lit cs :: rest, l =>
      if l.take cs.length = cs then matchSegs rest (l.drop cs.length) else none
  | Seg.ws :: rest, l =>
      let m := (l.takeWhile isWsChar).length
      (List.range m).findSome? (fun i => matchSegs rest (l.drop (m - i)))
  | Seg.cap k :: rest, l =>
      (capCandidates k l.length).findSome? (fun n =>
        if capLang k (l.take n) then
          (matchSegs rest (l.drop n)).map (fun caps => some (l.take n) :: caps)
        else none)
  | Seg.optWsCap k :: rest, l =>
      let withGroup :=
        (List.range ((l.takeWhile isWsChar).length)).findSome? (fun i =>
          let w := (l.takeWhile isWsChar).length - i
          let l2 := l.drop w
          (capCandidates k l2.length).findSome? (fun n =>
            if capLang k (l2.take n) then
              (matchSegs rest (l2.drop n)).map
                (fun caps => some (l2.take n) :: caps)
            else none))
      match withGroup with
      | some r => some r
      | none => (matchSegs rest l).map (fun caps => none :: caps)

/-! ## Phrase configuration (sentence.rs `PhraseConfig`) -/

/-- sentence.rs `ReturnSpec`. -/
inductive ReturnSpec : Type where
  | type (t : String) : ReturnSpec
  | literal (v : GodotValue) : ReturnSpec
  | format (fmt : String) : ReturnSpec

/-- sentence.rs `PhraseConfig` (`section` is a Lean keyword, hence
`sectionName`). -/
structure PhraseConfig : Type where
  pattern : String
  segs : List Seg
  parameters : List ParameterDefinition
  return_spec : ReturnSpec
  sectionName : String

/-- sentence.rs `match_phrase_exact`: run the compiled matcher on the
statement; on success collect `param name ↦ trimmed captured text` for every
parameter whose group captured. -/
def match_phrase_exact (statement : String) (p : PhraseConfig) :
    Option (List (String × String)) :=
  (matchSegs p.segs statement.data).map (fun caps =>
    (List.zip p.parameters caps).foldl
      (fun acc pc =>
        match pc.2 with
        | some cs => ainsert acc pc.1.name (trimString ⟨cs⟩)
        | none => acc)
      [])

/-! ## Specificity and selection -/

/-- `usize::MAX` on a 64-bit host. -/
def usizeMax : Nat := 2 ^ 64 - 1

/-- sentence.rs `phrase_specificity`: start from the template length in
bytes (our inputs are ASCII, so char count), subtract
`name.len() + param_type.len() + 4` per declared parameter with saturating
subtraction, and pair with `usize::MAX - #params` so that the
lexicographic order prefers more remaining literal weight, then fewer
parameters. -/
def phrase_specificity (p : PhraseConfig) : Nat × Nat :=
  (p.parameters.foldl
     (fun acc pd => acc - (pd.name.length + pd.param_type.length + 4))
     p.pattern.length,
   usizeMax - p.parameters.length)

/-- Lexicographic comparison of specificity keys. -/
def specLe (a b : Nat × Nat) : Bool :=
  a.1 < b.1 || (a.1 = b.1 && a.2 ≤ b.2)

/-- `matches.sort_by_key(specificity)` (a stable sort) followed by
`matches.pop().unwrap()` on a non-empty list: the element with the
lexicographically greatest key, the last such element in the original order
on ties. -/
def selectGreatest {α : Type} (key : α → Nat × Nat) (x0 : α) (xs : List α) :
    α :=
  xs.foldl (fun q p => if specLe (key q) (key p) then p else q) x0

/-! ## Translation key (sentence.rs `make_tr_key`) -/

/-- sentence.rs `camel_to_const_case`, char by char with one-char lookahead;
`prev_was_lower` is the negation of `prev_was_upper`, as in the source. -/
def camelAux : List Char → Bool → Bool → Bool → List Char
  | [], _, _, _ => []
  | c :: rest, pu, pl, nonempty =>
      let isU := c.isUpper
      let us : List Char :=
        if nonempty then
          if isU && pl then ['_']
          else
            match rest.head? with
            | some nxt => if !isU && pu && nxt.isUpper then ['_'] else []
            | none => []
        else []
      us ++ [c.toUpper] ++ camelAux rest isU (!isU) true

/-- sentence.rs `camel_to_const_case`. -/
def camel_to_const_case (s : String) : String :=
  ⟨camelAux s.data false false false⟩

/-- The 32-char alphabet of `u64_to_base32`. -/
def base32Alphabet : List Char :=
  ['A', 'B', 'C', 'D', 'E', 'F', 'G', 'H', 'I', 'J', 'K', 'L', 'M',
   'N', 'O', 'P', 'Q', 'R', 'S', 'T', 'U', 'V', 'W', 'X', 'Y', 'Z',
   '2', '3', '4', '5', '6', '7']

/-- Digits of `u64_to_base32`, least significant first; 64 units of fuel
cover any `u64`. -/
def u64ToBase32Aux : Nat → Nat → List Char
  | 0, _ => []
  | fuel + 1, n =>
      if n = 0 then []
      else base32Alphabet.getD (n % 32) 'A' :: u64ToBase32Aux fuel (n / 32)

/-- sentence.rs `u64_to_base32`. -/
def u64_to_base32 (n : Nat) : String :=
  if n = 0 then "A" else ⟨(u64ToBase32Aux 64 n).reverse⟩

/-- sentence.rs `PhraseConfig::make_tr_key`, parameterised by the std-library
hasher (`DefaultHasher`, a `u64` hash): const-cased section name, an
underscore, and the first 7 base-32 chars of the hash of the pattern. -/
def make_tr_key (hash : String → Nat) (p : PhraseConfig) : String :=
  camel_to_const_case p.sectionName ++ "_" ++
    ⟨(u64_to_base32 (hash p.pattern % 2 ^ 64)).data.take 7⟩

/-- One grammar entry built by `SentenceParser::from_yaml` from a bare
template string under a section: the compiled pattern with return spec
`Type(section name)` (sentence.rs lines 181-189). -/
def phraseOfTemplate (sectionName template : String) : PhraseConfig :=
  let bp := build_regex_for_phrase template
  { pattern := template
    segs := bp.1
    parameters := bp.2
    return_spec := .type sectionName
    sectionName := sectionName }

/-- sentence.rs `SentenceParser` (its `type_patterns` field is always the
empty map in this repository snapshot and is never read by
`process_with_depth`, so only the phrase list is carried). -/
structure SentenceParser : Type where
  phrases : List PhraseConfig

/-! ## Error model

`Box<dyn Error>` values that actually occur in this repository form a closed
set: `SentenceParseError` (sentence.rs), the one `std::io::Error` message
used for the depth guard, and `GodotValueError` (semantic.rs).  Error
payloads carried only for display are modelled as their message strings. -/

/-- sentence.rs `SentenceParseError` (payloads are the formatted strings). -/
inductive SentenceParseError : Type where
  | yamlParseError (msg : String) : SentenceParseError
  | emptyYaml : SentenceParseError
  | regexError (pat msg : String) : SentenceParseError
  | invalidPattern (msg : String) : SentenceParseError
  | noMatch (statement : String) : SentenceParseError
  | maxRecursionDepthExceeded (msg : String) : SentenceParseError
  | translationWriteError (msg : String) : SentenceParseError
deriving DecidableEq

/-- The dynamic errors (`Box<dyn Error>`) that occur in the repository. -/
inductive DynErr : Type where
  | sentenceParse (e : SentenceParseError) : DynErr
  | ioError (msg : String) : DynErr
  | godotValue (msg : String) : DynErr
deriving DecidableEq

/-! ## `Hypo` and `DokeOut` (closed worlds of the trait objects)

The repository contains exactly two `impl Hypo` blocks — `ErrorHypo` in
sentence.rs (carries a `SentenceParseError` and the statement) and the
generic `ErrorHypo<Er>` in semantic.rs (carries any error) — and exactly two
`impl DokeOut` blocks — `SentenceResult` in sentence.rs and `GodotValue`
itself in semantic.rs.  Both `Hypo` impls report confidence `-1.0` and
promote to `Err` of their stored error. -/

/-- Closed world of `Box<dyn Hypo>` values. -/
inductive Hypo : Type where
  | sentenceError (error : SentenceParseError) (statement : String) : Hypo
  | semanticError (error : DynErr) : Hypo
deriving DecidableEq

/-- `Hypo::confidence` (an `f32` in Rust, modelled as a rational): both
implementations in the repository return `-1.0`. -/
def Hypo.confidence : Hypo → ℚ
  | .sentenceError _ _ => -1
  | .semanticError _ => -1

/-- Closed world of `Box<dyn DokeOut>` values: sentence.rs
`SentenceResult` and semantic.rs `impl DokeOut for GodotValue`. -/
inductive DokeOut : Type where
  | sentenceResult (output_type : String)
      (parameters : List (String × GodotValue))
      (literal_value : Option GodotValue) (tr_key : String) : DokeOut
  | godot (v : GodotValue) : DokeOut

/-- `Hypo::promote`: both implementations return `Err` of the stored
error. -/
def Hypo.promote : Hypo → Except DynErr DokeOut
  | .sentenceError e _ => .error (.sentenceParse e)
  | .semanticError e => .error e

/-- `GodotValue::kind` (semantic.rs). -/
def GodotValue.kind : GodotValue → String
  | .nil => "Null"
  | .bool _ => "Bool"
  | .int _ => "Int"
  | .float _ => "Float"
  | .string _ => "String"
  | .array _ => "Array"
  | .dict _ => "Dict"
  | .resource _ _ => "Resource"

/-- `DokeOut::to_godot`: a `SentenceResult` with a literal value yields the
literal; otherwise a resource from the parameters **plus** the
`doke_tr_key` field (sentence.rs lines 682-693). -/
def DokeOut.to_godot : DokeOut → GodotValue
  | .sentenceResult t params lit tr =>
      match lit with
      | some v => v
      | none => .resource t (ainsert params "doke_tr_key" (.string tr))
  | .godot v => v

/-- `DokeOut::use_child` for both implementations (sentence.rs lines
695-713, semantic.rs lines 197-233); because the model is functional, a
success returns the updated receiver. -/
def DokeOut.use_child : DokeOut → GodotValue → Except DynErr DokeOut
  | .sentenceResult t params lit tr, child =>
      (match alookup params "children" with
       | some (GodotValue.array a) =>
           .ok (.sentenceResult t
             (ainsert params "children" (.array (a ++ [child]))) lit tr)
       | some _ => .error (.ioError "children field is not an array")
       | none =>
           .ok (.sentenceResult t
             (ainsert params "children" (.array [child])) lit tr))
  | .godot v, child =>
      match v with
      | .nil | .bool _ | .int _ | .float _ | .string _ =>
          .error (.godotValue ("Tried to add a child to a " ++ v.kind))
      | .array a => .ok (.godot (.array (a ++ [child])))
      | .dict h => .ok (.godot (.dict (ainsert h "children" child)))
      | .resource t fields =>
          match alookup fields "children" with
          | none =>
              .ok (.godot (.resource t
                (ainsert fields "children" (.array [child]))))
          | some (GodotValue.array a) =>
              .ok (.godot (.resource t
                (ainsert fields "children" (.array (a ++ [child])))))
          | some _ =>
              .error (.godotValue
                "children field of resource is not empty or an array")

/-- `DokeOut::use_constituent`: `SentenceResult` inserts the value under the
name; `GodotValue` uses the trait default (no-op `Ok`). -/
def DokeOut.use_constituent : DokeOut → String → GodotValue →
    Except DynErr DokeOut
  | .sentenceResult t params lit tr, name, value =>
      .ok (.sentenceResult t (ainsert params name value) lit tr)
  | .godot v, _, _ => .ok (.godot v)

/-! ## Statement tree (semantic.rs `DokeNode`) -/

/-- Position from the base parser module (byte offsets; `end` is a Lean keyword). -/
structure Position : Type where
  startPos : Nat
  endPos : Nat
deriving DecidableEq

/-- semantic.rs `DokeNodeState`.  The `Error` payload is the message of the
boxed error (the only such error constructed during resolution is the
`"Max recursion"` io error of `process_with_depth`). -/
inductive DokeNodeState : Type where
  | unresolved : DokeNodeState
  | hypothesis (hs : List Hypo) : DokeNodeState
  | resolved (out : DokeOut) : DokeNodeState
  | error (msg : String) : DokeNodeState

/-- semantic.rs `DokeNode` (a recursive tree, hence a single-constructor
inductive rather than a structure). -/
inductive DokeNode : Type where
  | mk (statement : String) (state : DokeNodeState)
      (children : List DokeNode)
      (parse_data : List (String × GodotValue))
      (constituents : List (String × DokeNode))
      (span : Position) : DokeNode

/-- Field projection. -/
def DokeNode.statement : DokeNode → String
  | .mk s _ _ _ _ _ => s

/-- Field projection. -/
def DokeNode.state : DokeNode → DokeNodeState
  | .mk _ st _ _ _ _ => st

/-- Field projection. -/
def DokeNode.children : DokeNode → List DokeNode
  | .mk _ _ ch _ _ _ => ch

/-- Field projection. -/
def DokeNode.parse_data : DokeNode → List (String × GodotValue)
  | .mk _ _ _ pd _ _ => pd

/-- Field projection. -/
def DokeNode.constituents : DokeNode → List (String × DokeNode)
  | .mk _ _ _ _ cn _ => cn

/-- Field projection. -/
def DokeNode.span : DokeNode → Position
  | .mk _ _ _ _ _ sp => sp

/-- Replace the node state (model of `node.state = ...`). -/
def DokeNode.withState : DokeNode → DokeNodeState → DokeNode
  | .mk s _ ch pd cn sp, st => .mk s st ch pd cn sp

/-- Insert one `parse_data` entry (model of `node.parse_data.insert`). -/
def DokeNode.insertParseData : DokeNode → String → GodotValue → DokeNode
  | .mk s st ch pd cn sp, k, v => .mk s st ch (ainsert pd k v) cn sp

/-- Extend the constituents map (model of `node.constituents.extend`). -/
def DokeNode.extendConstituents : DokeNode → List (String × DokeNode) →
    DokeNode
  | .mk s st ch pd cn sp, adds => .mk s st ch pd (aextend cn adds) sp

/-- Whether the state is `Unresolved` (the `matches!` test). -/
def DokeNodeState.isUnresolvedB : DokeNodeState → Bool
  | .unresolved => true
  | _ => false

/-- Whether the state is `Resolved`. -/
def DokeNodeState.isResolvedB : DokeNodeState → Bool
  | .resolved _ => true
  | _ => false

/-- Whether the state is `Hypothesis`. -/
def DokeNodeState.isHypothesisB : DokeNodeState → Bool
  | .hypothesis _ => true
  | _ => false

/-- Whether the state is `Error`. -/
def DokeNodeState.isErrorB : DokeNodeState → Bool
  | .error _ => true
  | _ => false

/-- The hypothesis list, when the state is `Hypothesis`. -/
def DokeNodeState.getHypotheses : DokeNodeState → Option (List Hypo)
  | .hypothesis hs => some hs
  | _ => none

/-- The resolved output, when the state is `Resolved`. -/
def DokeNodeState.getResolved : DokeNodeState → Option DokeOut
  | .resolved out => some out
  | _ => none

/-! ## Format-string substitution (sentence.rs `perform_format_string`) -/

mutual

/-- `godot_value_to_string` (sentence.rs lines 434-460).  Floats display
their stored token (no claim depends on float formatting). -/
def godot_value_to_string : GodotValue → String
  | .nil => ""
  | .bool b => if b then "true" else "false"
  | .int i => toString i
  | .float raw => raw
  | .string s => s
  | .array a =>
      "[" ++ String.intercalate ", " (gvListToStrings a) ++ "]"
  | .dict m =>
      "\x7b" ++ String.intercalate ", " (gvEntriesToStrings ":" m) ++ "\x7d"
  | .resource t fields =>
      "Resource(" ++
        String.intercalate ","
          (("type=" ++ t) :: gvEntriesToStrings "=" fields) ++ ")"

/-- Display of every element of an array (helper of the mutual
recursion). -/
def gvListToStrings : List GodotValue → List String
  | [] => []
  | v :: rest => godot_value_to_string v :: gvListToStrings rest

/-- Display of every `key SEP value` entry of a map (helper of the mutual
recursion). -/
def gvEntriesToStrings : String → List (String × GodotValue) → List String
  | _, [] => []
  | sep, (k, v) :: rest =>
      (k ++ sep ++ godot_value_to_string v) :: gvEntriesToStrings sep rest

end

/-- Leftmost match of `\{([^}]+)\}` at the head of the input: (key chars,
rest after the closing brace). -/
def fmtPlaceholder (l : List Char) : Option (List Char × List Char) :=
  match l with
  | '{' :: rest =>
      let key := rest.takeWhile (fun c => c ≠ '}')
      if key.isEmpty then none
      else
        match rest.drop key.length with
        | '}' :: tail => some (key, tail)
        | _ => none
  | _ => none

/-- Scanner of `perform_format_string`: replace `{name}` first from parsed
parameters, then from front matter, else keep the placeholder verbatim. -/
def performFormatAux (params front : List (String × GodotValue)) :
    Nat → List Char → List Char
  | 0, l => l
  | _ + 1, [] => []
  | fuel + 1, c :: rest =>
      match fmtPlaceholder (c :: rest) with
      | some (key, tail) =>
          let ks : String := ⟨key⟩
          let rep : List Char :=
            match alookup params ks with
            | some v => (godot_value_to_string v).data
            | none =>
                match alookup front ks with
                | some v => (godot_value_to_string v).data
                | none => '{' :: (key ++ ['}'])
          rep ++ performFormatAux params front fuel tail
      | none => c :: performFormatAux params front fuel rest

/-- sentence.rs `perform_format_string`. -/
def perform_format_string (fmt : String)
    (params front : List (String × GodotValue)) : String :=
  ⟨performFormatAux params front (fmt.data.length + 1) fmt.data⟩

/-! ## One node resolution step (sentence.rs `process_with_depth`) -/

/-- sentence.rs `create_constituent_node`: an unresolved node holding the
captured raw text, with the span of the parent statement. -/
def create_constituent_node (value : String) (span : Position) : DokeNode :=
  .mk value .unresolved [] [] [] span

/-- The parameter loop of `parse_parameters` (sentence.rs lines 289-309),
parameterised by the recursive resolution of constituents (the source calls
`self.process_with_depth(&mut child, frontmatter, 0)` — depth restarts at
`0`).  The accumulators are the parsed-parameter map and the
constituent-node map; `none` propagates fuel exhaustion of the recursion. -/
def parseParamsAux (recurse : DokeNode → Option DokeNode)
    (raw : List (String × String)) (span : Position) :
    List ParameterDefinition →
    List (String × GodotValue) × List (String × DokeNode) →
    Option (List (String × GodotValue) × List (String × DokeNode))
  | [], acc => some acc
  | pd :: rest, acc =>
      match alookup raw pd.name with
      | some rawVal =>
          if is_basic_type pd.param_type then
            match parse_basic_parameter rawVal pd.param_type with
            | some v =>
                parseParamsAux recurse raw span rest
                  (ainsert acc.1 pd.name v, acc.2)
            | none => parseParamsAux recurse raw span rest acc
          else
            let child :=
              (create_constituent_node rawVal span).insertParseData
                "sentence_type" (.string pd.param_type)
            match recurse child with
            | some child2 =>
                parseParamsAux recurse raw span rest
                  (acc.1, ainsert acc.2 pd.name child2)
            | none => none
      | none => parseParamsAux recurse raw span rest acc

/-- The body of `process_with_depth` (sentence.rs lines 223-277), with the
recursive constituent resolution supplied as `recurse`.  Returns the updated
node, or `none` if the recursion did not complete within its fuel. -/
def processStep (hash : String → Nat) (sp : SentenceParser)
    (fm : List (String × GodotValue))
    (recurse : DokeNode → Nat → Option DokeNode)
    (node : DokeNode) (depth : Nat) : Option DokeNode :=
  if depth > 100 then
    some (node.withState (.error "Max recursion"))
  else if !node.state.isUnresolvedB then
    some node
  else
    let statement := trimStatement node.statement
    let ms := sp.phrases.filterMap (fun p =>
      (match_phrase_exact statement p).map (fun raw => (p, raw)))
    match ms with
    | [] =>
        some (node.withState (.hypothesis
          [Hypo.sentenceError (.noMatch statement) statement]))
    | m0 :: mrest =>
        let best := selectGreatest (fun pr => phrase_specificity pr.1) m0 mrest
        match parseParamsAux (fun c => recurse c 0) best.2 node.span
            best.1.parameters ([], []) with
        | none => none
        | some acc =>
            let trk := make_tr_key hash best.1
            let result : DokeOut :=
              match best.1.return_spec with
              | .type t => .sentenceResult t acc.1 none trk
              | .literal lv => .sentenceResult "" acc.1 (some lv) trk
              | .format fmt =>
                  .sentenceResult "" acc.1
                    (some (.string (perform_format_string fmt acc.1 fm))) trk
            some ((node.extendConstituents acc.2).withState (.resolved result))

/-- sentence.rs `SentenceParser::process_with_depth`, driven by fuel: one
unit of fuel is consumed at each (recursive) invocation, and the constituent
recursion restarts `depth` at `0` exactly as the source does.  `none` means
the computation did not complete within the fuel — the Rust function, which
has no fuel, would still be running (or would have overflowed the stack). -/
def process_with_depth (hash : String → Nat) (sp : SentenceParser)
    (fm : List (String × GodotValue)) :
    Nat → DokeNode → Nat → Option DokeNode
  | 0, _, _ => none
  | fuel + 1, node, depth =>
      processStep hash sp fm (process_with_depth hash sp fm fuel) node depth

/-- Projection: the error of an `Except`, if any. -/
def exceptErr {E A : Type} : Except E A → Option E
  | .error e => some e
  | .ok _ => none

/-- Projection: the value of an `Except`, if any. -/
def exceptOk {E A : Type} : Except E A → Option A
  | .ok a => some a
  | .error _ => none

/-! ## Validator (semantic.rs `DokeValidate`) -/

/-- semantic.rs `DokeValidationError` (message-only payloads are modelled as
strings; `MissingField` and `InvalidFieldType` are declared in the source
but never constructed). -/
inductive DokeValidationError : Type where
  | nodeError (statement msg : String) : DokeValidationError
  | missingField (field resource : String) : DokeValidationError
  | invalidFieldType (field resource expected got : String) :
      DokeValidationError
  | hypothesisPromotionFailed (e : DynErr) (pos : Position) :
      DokeValidationError
  | unresolvedNode (statement : String) : DokeValidationError
  | multipleErrors (errs : List DokeValidationError) : DokeValidationError
  | childUsageFailed (e : DynErr) : DokeValidationError
  | dynamicError (e : DynErr) : DokeValidationError

/-- `Iterator::max_by` over `enumerate()` with
`partial_cmp(..).unwrap_or(Equal)`: index of the candidate with the maximum
confidence; among equal maxima the *last* one wins (Rust `max_by` keeps the
later element on ties). -/
def bestIdx (hs : List Hypo) : Option Nat :=
  (hs.enum.foldl
    (fun acc p =>
      match acc with
      | none => some p
      | some q => if q.2.confidence ≤ p.2.confidence then some p else some q)
    none).map (fun p => p.1)

/-- The `use_child` loop of `process_node`: feed child values in order; on
the first failure return it together with the receiver as already updated by
the preceding successful merges (the Rust receiver is mutated in place). -/
def mergeChildren : DokeOut → List GodotValue → Option DynErr × DokeOut
  | out, [] => (none, out)
  | out, v :: rest =>
      match out.use_child v with
      | .ok out2 => mergeChildren out2 rest
      | .error e => (some e, out)

/-- The `use_constituent` loop of `process_node`, analogous to
`mergeChildren`. -/
def mergeConstituents : DokeOut → List (String × GodotValue) →
    Option DynErr × DokeOut
  | out, [] => (none, out)
  | out, (name, v) :: rest =>
      match out.use_constituent name v with
      | .ok out2 => mergeConstituents out2 rest
      | .error e => (some e, out)

/-- A placeholder hypothesis for the impossible out-of-range index of
`bestIdx` (never reached: `bestIdx hs = some i → i < hs.length`). -/
def deadHypo : Hypo :=
  .semanticError (.ioError "unreachable")

mutual

/-- semantic.rs `DokeValidate::process_node`: validate children, then
constituents, then the node state; since the model is functional, the
result is paired with the updated node.  On a child or constituent error
the Rust code returns immediately, leaving the node state untouched. -/
def process_node (fm : List (String × GodotValue)) (node : DokeNode) :
    Except DokeValidationError GodotValue × DokeNode :=
  match node with
  | .mk s st ch pd cn sp =>
      match processChildList fm ch with
      | (.error e, ch2) => (.error e, .mk s st ch2 pd cn sp)
      | (.ok cvs, ch2) =>
          match processConstList fm cn with
          | (.error e, cn2) => (.error e, .mk s st ch2 pd cn2 sp)
          | (.ok ccs, cn2) =>
              match st with
              | .unresolved => (.error (.unresolvedNode s), .mk s st ch2 pd cn2 sp)
              | .error msg => (.error (.nodeError s msg), .mk s st ch2 pd cn2 sp)
              | .resolved out =>
                  (match mergeChildren out cvs with
                   | (some e, out1) =>
                       (.error (.childUsageFailed e),
                        .mk s (.resolved out1) ch2 pd cn2 sp)
                   | (none, out1) =>
                       match mergeConstituents out1 ccs with
                       | (some e, out2) =>
                           (.error (.dynamicError e),
                            .mk s (.resolved out2) ch2 pd cn2 sp)
                       | (none, out2) =>
                           (.ok out2.to_godot,
                            .mk s (.resolved out2) ch2 pd cn2 sp))
              | .hypothesis hs =>
                  match bestIdx hs with
                  | none =>
                      (.error (.unresolvedNode s),
                       .mk s (.hypothesis hs) ch2 pd cn2 sp)
                  | some i =>
                      let hypo := hs.getD i deadHypo
                      let remaining := hs.eraseIdx i
                      match hypo.promote with
                      | .error e =>
                          (.error (.hypothesisPromotionFailed e sp),
                           .mk s (.hypothesis remaining) ch2 pd cn2 sp)
                      | .ok r0 =>
                          match mergeChildren r0 cvs with
                          | (some e, _) =>
                              (.error (.childUsageFailed e),
                               .mk s (.hypothesis remaining) ch2 pd cn2 sp)
                          | (none, out1) =>
                              match mergeConstituents out1 ccs with
                              | (some e, _) =>
                                  (.error (.dynamicError e),
                                   .mk s (.hypothesis remaining) ch2 pd cn2 sp)
                              | (none, out2) =>
                                  (.ok out2.to_godot,
                                   .mk s (.resolved out2) ch2 pd cn2 sp)

/-- The children loop of `process_node`: sequential, stopping at the first
error (later children are left untouched, as in the source). -/
def processChildList (fm : List (String × GodotValue)) :
    List DokeNode →
    Except DokeValidationError (List GodotValue) × List DokeNode
  | [] => (.ok [], [])
  | c :: rest =>
      match process_node fm c with
      | (.ok v, c2) =>
          match processChildList fm rest with
          | (.ok vs, rest2) => (.ok (v :: vs), c2 :: rest2)
          | (.error e, rest2) => (.error e, c2 :: rest2)
      | (.error e, c2) => (.error e, c2 :: rest)

/-- The constituents loop of `process_node`, collecting `name ↦ value`. -/
def processConstList (fm : List (String × GodotValue)) :
    List (String × DokeNode) →
    Except DokeValidationError (List (String × GodotValue)) ×
      List (String × DokeNode)
  | [] => (.ok [], [])
  | (name, c) :: rest =>
      match process_node fm c with
      | (.ok v, c2) =>
          match processConstList fm rest with
          | (.ok vs, rest2) => (.ok ((name, v) :: vs), (name, c2) :: rest2)
          | (.error e, rest2) => (.error e, (name, c2) :: rest2)
      | (.error e, c2) => (.error e, (name, c2) :: rest)

end

/-- semantic.rs `DokeValidate::validate_tree`: every root is processed
independently; zero failures yield all values, exactly one failure yields
that error, two or more yield `MultipleErrors` with all of them, in root
order. -/
def validate_tree (fm : List (String × GodotValue))
    (roots : List DokeNode) :
    Except DokeValidationError (List GodotValue) × List DokeNode :=
  let pr := roots.map (process_node fm)
  let results := pr.map (fun p => p.1)
  let okvs := results.filterMap exceptOk
  let errs := results.filterMap exceptErr
  (match errs with
   | [] => .ok okvs
   | [e] => .error e
   | _ => .error (.multipleErrors errs),
   pr.map (fun p => p.2))

/-! ## Typed dispatch (typed_sentences.rs) -/

/-- A minimal model of the `yaml_rust2::Yaml` values that the rule loader
inspects.  Hash keys are modelled as strings (the source skips non-string
keys; no claim depends on such configurations). -/
inductive YamlV : Type where
  | str (s : String) : YamlV
  | int (i : Int) : YamlV
  | real (s : String) : YamlV
  | bool (b : Bool) : YamlV
  | arr (items : List YamlV) : YamlV
  | hash (entries : List (String × YamlV)) : YamlV
  | null : YamlV

/-- typed_sentences.rs `ChildSpec`. -/
inductive ChildSpec : Type where
  | simple (items : List String) : ChildSpec
  | structured (entries : List (String × List String)) : ChildSpec
deriving DecidableEq

/-- typed_sentences.rs `ChildSpec::allowed`: flat form tests membership;
grouped form tests membership in any group. -/
def ChildSpec.allowed : ChildSpec → String → Bool
  | .simple items, t => items.contains t
  | .structured m, t => m.any (fun kv => kv.2.contains t)

/-- typed_sentences.rs `parse_child_spec`: arrays give the flat form
(keeping string items), hashes the grouped form (keeping array values and
their string items), anything else the empty flat form.  The Rust function
returns `Result` but never errors. -/
def parse_child_spec : YamlV → ChildSpec
  | .arr items =>
      .simple (items.filterMap (fun i =>
        match i with
        | .str s => some s
        | _ => none))
  | .hash entries =>
      .structured (entries.filterMap (fun kv =>
        match kv.2 with
        | .arr types =>
            some (kv.1, types.filterMap (fun t =>
              match t with
              | .str s => some s
              | _ => none))
        | _ => none))
  | _ => .simple []

/-- typed_sentences.rs `TypeRule` (the `parser_ref` is condensed to its glob
pattern; file loading is external I/O). -/
structure TypeRule : Type where
  target_type : String
  parser_pat : String
  priority : Int
  children : ChildSpec
  sentenceParser : SentenceParser

/-- Intermediate result of `parse_rule` before parser loading. -/
structure PreRule : Type where
  target_type : String
  parser_pat : String
  priority : Int
  children : ChildSpec

/-- Accumulator state of the `parse_rule` field loop. -/
structure RuleAcc : Type where
  target_type : Option String
  parser_pat : Option String
  priority : Int
  children : ChildSpec

/-- typed_sentences.rs `parse_rule`: walk the rule hash (later duplicate
keys win), then require `for` and `parser`.  `priority` defaults to `0` and
`children` to the empty flat form. -/
def parse_rule (entries : List (String × YamlV)) : Option PreRule :=
  let acc := entries.foldl
    (fun (acc : RuleAcc) kv =>
      if kv.1 = "for" then
        match kv.2 with
        | .str t => { acc with target_type := some t }
        | _ => acc
      else if kv.1 = "parser" then
        match kv.2 with
        | .str p => { acc with parser_pat := some p }
        | _ => acc
      else if kv.1 = "priority" then
        match kv.2 with
        | .int n => { acc with priority := n }
        | _ => acc
      else if kv.1 = "children" then
        { acc with children := parse_child_spec kv.2 }
      else acc)
    ⟨none, none, 0, .simple []⟩
  match acc.target_type, acc.parser_pat with
  | some t, some p => some ⟨t, p, acc.priority, acc.children⟩
  | _, _ => none

/-- Stable insert for the descending-priority sort: the new element goes
after every already-placed element of greater or equal priority. -/
def insertByPriority (x : TypeRule) : List TypeRule → List TypeRule
  | [] => [x]
  | y :: rest =>
      if x.priority ≤ y.priority then y :: insertByPriority x rest
      else x :: y :: rest

/-- `sort_by(|a, b| b.priority.cmp(&a.priority))`: the stable descending
sort by priority (modelled as a stable insertion sort, which computes the
same list). -/
def sortByPriorityDesc (l : List TypeRule) : List TypeRule :=
  l.foldl (fun acc x => insertByPriority x acc) []

/-- The rule-parsing loop of `from_config`: every rule hash must parse
(fail-fast on the first configuration error). -/
def parseRules : List (List (String × YamlV)) → Option (List PreRule)
  | [] => some []
  | h :: t =>
      match parse_rule h with
      | none => none
      | some r =>
          match parseRules t with
          | none => none
          | some rs => some (r :: rs)

/-- The parser-loading loop of `from_config` (typed_sentences.rs lines
102-114): each rule's grammar file set is loaded, and the rule is rebuilt
with `children: ChildSpec::Simple(vec![])` — the parsed child specification
is discarded (line 111). -/
def loadRules (loadSP : String → String → Option SentenceParser) :
    List PreRule → Option (List TypeRule)
  | [] => some []
  | r :: t =>
      match loadSP r.parser_pat r.target_type with
      | none => none
      | some sp =>
          match loadRules loadSP t with
          | none => none
          | some rs =>
              some (TypeRule.mk r.target_type r.parser_pat r.priority
                (ChildSpec.simple []) sp :: rs)

/-- typed_sentences.rs `from_config` after YAML decoding, with the external
file-glob parser loading supplied as `loadSP` (pattern and target type to a
`SentenceParser`, `none` for a load failure): parse every rule hash, load
each parser and rebuild the rules, then sort by descending priority. -/
def from_config_rules (loadSP : String → String → Option SentenceParser)
    (ruleHashes : List (List (String × YamlV))) : Option (List TypeRule) :=
  match parseRules ruleHashes with
  | none => none
  | some rules => (loadRules loadSP rules).map sortByPriorityDesc

/-- typed_sentences.rs `rule_matches_parent`: no parent (root) always
passes; otherwise the child specification must allow the parent type. -/
def rule_matches_parent (rule : TypeRule) (parent : Option String) : Bool :=
  match parent with
  | none => true
  | some p => rule.children.allowed p

/-- typed_sentences.rs `try_process_with_rule`: run the rule sentence
parser (`process` calls `process_with_depth` with depth `0`); if the node
resolved, record the winning abstract type in `parse_data` and report
success; otherwise restore `Unresolved` when the node was unresolved before
the attempt. -/
def try_process_with_rule (hash : String → Nat) (fuel : Nat)
    (fm : List (String × GodotValue)) (rule : TypeRule) (node : DokeNode) :
    Option (Bool × DokeNode) :=
  let wasUnresolved := node.state.isUnresolvedB
  match process_with_depth hash rule.sentenceParser fm fuel node 0 with
  | none => none
  | some n2 =>
      if n2.state.isResolvedB then
        some (true, n2.insertParseData "abstract_type"
          (.string rule.target_type))
      else
        some (false, if wasUnresolved then n2.withState .unresolved else n2)

/-- One `for rule in ...` pass of `process_node_recursive`: try rules in
order, stopping at the first that resolves the node. -/
def tryRulesLoop (hash : String → Nat) (fuel : Nat)
    (fm : List (String × GodotValue)) :
    List TypeRule → DokeNode → Option DokeNode
  | [], node => some node
  | r :: rest, node =>
      match try_process_with_rule hash fuel fm r node with
      | none => none
      | some (true, n2) => some n2
      | some (false, n2) => tryRulesLoop hash fuel fm rest n2

/-- The rule-dispatch section of `process_node_recursive`
(typed_sentences.rs lines 329-353): on an unresolved node, first the rules
whose child specification admits the parent type, sorted by descending
priority; if the node is still unresolved afterwards, all rules. -/
def resolveWithRules (hash : String → Nat) (fuel : Nat)
    (fm : List (String × GodotValue)) (rules : List TypeRule)
    (parent : Option String) (node : DokeNode) : Option DokeNode :=
  if node.state.isUnresolvedB then
    let candidates :=
      sortByPriorityDesc (rules.filter (fun r => rule_matches_parent r parent))
    match tryRulesLoop hash fuel fm candidates node with
    | none => none
    | some n2 =>
        if n2.state.isUnresolvedB then
          tryRulesLoop hash fuel fm (sortByPriorityDesc rules) n2
        else some n2
  else some node

/-- Map a fallible node transform over a child list. -/
def mapNodes (f : DokeNode → Option DokeNode) :
    List DokeNode → Option (List DokeNode)
  | [] => some []
  | c :: rest =>
      match f c with
      | none => none
      | some c2 =>
          match mapNodes f rest with
          | none => none
          | some rest2 => some (c2 :: rest2)

/-- Map a fallible node transform over a constituents map. -/
def mapConstNodes (f : DokeNode → Option DokeNode) :
    List (String × DokeNode) → Option (List (String × DokeNode))
  | [] => some []
  | (k, c) :: rest =>
      match f c with
      | none => none
      | some c2 =>
          match mapConstNodes f rest with
          | none => none
          | some rest2 => some ((k, c2) :: rest2)

/-- typed_sentences.rs `process_node_recursive`: at depth above 100 return
silently (the node is left untouched — no `Error` state is set); otherwise
dispatch on the node when unresolved, read the recorded abstract type when
resolved, and recurse into children and constituents with `depth + 1`.
`tfuel` is structural fuel for the tree walk (the Rust recursion is bounded
by the depth guard; any `tfuel` exceeding the tree height gives the Rust
behaviour). -/
def process_node_recursive (hash : String → Nat) (fuel : Nat)
    (fm : List (String × GodotValue)) (rules : List TypeRule) :
    Nat → DokeNode → Option String → Nat → Option DokeNode
  | 0, _, _, _ => none
  | tfuel + 1, node, parent, depth =>
      if depth > 100 then some node
      else
        match resolveWithRules hash fuel fm rules parent node with
        | none => none
        | some n1 =>
            match n1 with
            | .mk s st ch pd cn sp =>
                let currentTy : Option String :=
                  if st.isResolvedB then
                    match alookup pd "abstract_type" with
                    | some (.string t) => some t
                    | _ => none
                  else none
                match mapNodes
                    (fun c => process_node_recursive hash fuel fm rules tfuel
                      c currentTy (depth + 1)) ch with
                | none => none
                | some ch2 =>
                    match mapConstNodes
                        (fun c => process_node_recursive hash fuel fm rules
                          tfuel c currentTy (depth + 1)) cn with
                    | none => none
                    | some cn2 => some (.mk s st ch2 pd cn2 sp)

/-! ## Derived measures and concrete instances used by the verification -/

/-- A signed radix-prefixed member of the int capture-group language: a
sign character followed by a `0b`/`0o`/`0x` form (any letter case). -/
def signedRadixForm (l : List Char) : Bool :=
  hasSign l &&
    (startsWith2 (dropSign l) '0' 'b' || startsWith2 (dropSign l) '0' 'B' ||
     startsWith2 (dropSign l) '0' 'o' || startsWith2 (dropSign l) '0' 'O' ||
     startsWith2 (dropSign l) '0' 'x' || startsWith2 (dropSign l) '0' 'X')

/-- Whether a segment is the optional wrapper `(?:\s+G)?`. -/
def Seg.isOptB : Seg → Bool
  | .optWsCap _ => true
  | _ => false

/-- Literal character count of a compiled pattern: chars of literal runs,
plus one per collapsed whitespace run (our concrete templates use
single-space runs, so this equals the number of non-placeholder chars of
the template). -/
def segLitCount (segs : List Seg) : Nat :=
  segs.foldl
    (fun acc sg =>
      match sg with
      | .lit l => acc + l.length
      | .ws => acc + 1
      | _ => acc) 0

/-- Total per-parameter penalty of `phrase_specificity`:
`Σ (name.len + param_type.len + 4)`. -/
def phrasePenalty (p : PhraseConfig) : Nat :=
  p.parameters.foldl
    (fun acc pd => acc + (pd.name.length + pd.param_type.length + 4)) 0

/-- The grammar of spec end-to-end example 1:
`DamageEffect: ["Deals {damage: int}"]`. -/
def damageGrammar : SentenceParser :=
  ⟨[phraseOfTemplate "DamageEffect" "Deals {damage: int}"]⟩

/-- The input statement node of spec end-to-end example 1. -/
def dealsNode : DokeNode :=
  .mk "Deals 42." .unresolved [] [] [] ⟨0, 0⟩

/-- A cyclic grammar set: type `A` whose only phrase embeds type `A`
(`A: ["{a: A}"]`). -/
def loopGrammar : SentenceParser :=
  ⟨[phraseOfTemplate "A" "{a: A}"]⟩

/-- An unresolved node whose statement matches the cyclic phrase. -/
def fooNode : DokeNode :=
  .mk "foo" .unresolved [] [] [] ⟨0, 0⟩

/-- A template with the larger template length (19) and the larger literal
character count (5), but an implicit-`string` placeholder whose penalty
(12 + 6 + 4) saturates its specificity to 0. -/
def longPhrase : PhraseConfig :=
  phraseOfTemplate "LongT" "A 12 {xxxxxxxxxxxx}"

/-- A template with the smaller template length (12) and the smaller
literal character count (4), penalty 1 + 3 + 4, specificity 4. -/
def shortPhrase : PhraseConfig :=
  phraseOfTemplate "ShortT" "A {m: int} B"

/-- Grammar set holding both specificity counterexample templates. -/
def specGrammar : SentenceParser :=
  ⟨[longPhrase, shortPhrase]⟩

/-- A statement both specificity counterexample templates match. -/
def specNode : DokeNode :=
  .mk "A 12 B" .unresolved [] [] [] ⟨0, 0⟩

/-- A grammar set with no phrases (no entry can match anything). -/
def emptyGrammar : SentenceParser :=
  ⟨[]⟩

/-- An unresolved node used to exercise the no-match path. -/
def xyzNode : DokeNode :=
  .mk "xyz" .unresolved [] [] [] ⟨4, 7⟩

/-- A node in `Hypothesis` state holding exactly the no-match candidate,
as `process_with_depth` leaves it. -/
def hypoNode : DokeNode :=
  .mk "s" (.hypothesis [Hypo.sentenceError (.noMatch "s") "s"]) [] [] []
    ⟨3, 9⟩

/-- A root that validates successfully. -/
def okRoot : DokeNode :=
  .mk "ok" (.resolved (.godot (.int 1))) [] [] [] ⟨0, 0⟩

/-- A failing root (unresolved). -/
def badRoot1 : DokeNode :=
  .mk "u1" .unresolved [] [] [] ⟨0, 0⟩

/-- A second failing root (unresolved). -/
def badRoot2 : DokeNode :=
  .mk "u2" .unresolved [] [] [] ⟨0, 0⟩

/-- A rule configuration hash declaring a non-empty child specification
(`for: A, parser: g, children: [P]`). -/
def ruleCfgA : List (String × YamlV) :=
  [("for", .str "A"), ("parser", .str "g"), ("children", .arr [.str "P"])]

/-- A parser loader that always succeeds with the empty grammar (the claim
under test does not depend on the loaded phrases). -/
def loadTrivial : String → String → Option SentenceParser :=
  fun _ _ => some ⟨[]⟩

/-- The rule `from_config` builds from `ruleCfgA` with `loadTrivial`. -/
def ruleLoadedA : TypeRule :=
  ⟨"A", "g", 0, .simple [], ⟨[]⟩⟩

/-- A dispatch rule whose grammar set is empty (its sentence pass can never
resolve a node). -/
def emptyRule : TypeRule :=
  ⟨"R", "p", 0, .simple [], ⟨[]⟩⟩

/-- Projection: the output type name of a resolved node, when its result is
a `SentenceResult`. -/
def resolvedTypeName (n : DokeNode) : Option String :=
  match n.state with
  | .resolved (.sentenceResult t _ _ _) => some t
  | _ => none

/-- Equal-penalty witness template 1: length 16, penalty 1 + 3 + 4 = 8. -/
def w1Phrase : PhraseConfig :=
  phraseOfTemplate "W1" "Go {n: int} now!"

/-- Equal-penalty witness template 2: length 14, penalty 1 + 3 + 4 = 8. -/
def w2Phrase : PhraseConfig :=
  phraseOfTemplate "W2" "Go {k: int} ok"

/-! ## Shared helper lemmas -/

/-- `withState` sets the state. -/
theorem withState_state (n : DokeNode) (st : DokeNodeState) :
    (n.withState st).state = st := by
  obtain ⟨s, st0, ch, pd, cn, sp⟩ := n
  rfl

/-- `insertParseData` leaves the state unchanged. -/
theorem insertParseData_state (n : DokeNode) (k : String) (v : GodotValue) :
    (n.insertParseData k v).state = n.state := by
  obtain ⟨s, st0, ch, pd, cn, sp⟩ := n
  rfl

/-- Characters of the trimmed list come from the original list. -/
theorem mem_trimChars {c : Char} {l : List Char} (h : c ∈ trimChars l) :
    c ∈ l := by
  unfold trimChars at h
  rw [List.mem_reverse] at h
  have h2 := (List.dropWhile_sublist _).mem h
  rw [List.mem_reverse] at h2
  exact (List.dropWhile_sublist _).mem h2

/-- If no character of `s` is a colon, `s` does not end with `:?`. -/
theorem strEndsWith_colon_free {s : String}
    (h : ∀ c ∈ s.data, c ≠ ':') : strEndsWith s ":?" = false := by
  by_contra hne
  have ht : strEndsWith s ":?" = true := by
    cases hb : strEndsWith s ":?" with
    | true => rfl
    | false => exact absurd hb hne
  unfold strEndsWith at ht
  rw [Bool.and_eq_true] at ht
  have heq : s.data.drop (s.data.length - (":?" : String).data.length) =
      (":?" : String).data := by
    have h2 := ht.2
    exact eq_of_beq h2
  have hmem : ':' ∈ s.data.drop (s.data.length - (":?" : String).data.length) := by
    rw [heq]
    exact List.mem_cons_self _ _
  exact h ':' (List.mem_of_mem_drop hmem) rfl

/-! ## Claim C6 -/

/-- C6: for an unresolved node on which zero grammar entries match the
trimmed statement, `process_with_depth` sets the state to `Hypothesis` with
exactly one candidate; that candidate has confidence `-1`, strictly less
than every positive confidence, and promoting it yields the no-sentence-
match error carrying the (trimmed) statement text. -/
theorem c6_no_match_negative_hypothesis (hash : String → Nat)
    (sp : SentenceParser) (fm : List (String × GodotValue)) (fuel : Nat)
    (node : DokeNode)
    (hu : node.state = .unresolved)
    (hm : sp.phrases.filterMap (fun p =>
        (match_phrase_exact (trimStatement node.statement) p).map
          (fun raw => (p, raw))) = []) :
    process_with_depth hash sp fm (fuel + 1) node 0 =
      some (node.withState (.hypothesis
        [Hypo.sentenceError (.noMatch (trimStatement node.statement))
          (trimStatement node.statement)])) ∧
    (Hypo.sentenceError (.noMatch (trimStatement node.statement))
        (trimStatement node.statement)).confidence = -1 ∧
    (∀ q : ℚ, 0 < q →
      (Hypo.sentenceError (.noMatch (trimStatement node.statement))
          (trimStatement node.statement)).confidence < q) ∧
    (Hypo.sentenceError (.noMatch (trimStatement node.statement))
        (trimStatement node.statement)).promote =
      .error (.sentenceParse (.noMatch (trimStatement node.statement))) := by
  refine ⟨?_, rfl, ?_, rfl⟩
  · simp only [process_with_depth, processStep, hu, hm,
      DokeNodeState.isUnresolvedB]
    norm_num
  · intro q hq
    simp only [Hypo.confidence]
    linarith

/-- Witness for C6 at a concrete input: the empty grammar set matches
nothing, and the node ends in the single-candidate hypothesis state. -/
theorem c6_witness :
    xyzNode.state = DokeNodeState.unresolved ∧
    emptyGrammar.phrases.filterMap (fun p =>
      (match_phrase_exact (trimStatement xyzNode.statement) p).map
        (fun raw => (p, raw))) = [] ∧
    process_with_depth (fun _ => 0) emptyGrammar [] 1 xyzNode 0 =
      some (xyzNode.withState (.hypothesis
        [Hypo.sentenceError (.noMatch "xyz") "xyz"])) :=
  ⟨rfl, rfl,
   (c6_no_match_negative_hypothesis (fun _ => 0) emptyGrammar [] 0 xyzNode
      rfl rfl).1⟩

/-! ## Claim C5 -/

/-- C5 counterexample: promoting the single candidate of a `Hypothesis`
node fails, the error is reported with the node span — but the node, while
still in `Hypothesis` state, no longer holds the failed candidate: its
hypothesis list is empty afterwards (the claim asserts the node still holds
the failed candidate). -/
theorem c5_counterexample :
    process_node [] hypoNode =
      (.error (.hypothesisPromotionFailed (.sentenceParse (.noMatch "s"))
         ⟨3, 9⟩),
       .mk "s" (.hypothesis []) [] [] [] ⟨3, 9⟩) ∧
    (process_node [] hypoNode).2.state.getHypotheses = some [] :=
  ⟨rfl, rfl⟩

/-- C5 as amended: when the children and constituents validate trivially
and promotion of the best candidate fails, `process_node` reports
`HypothesisPromotionFailed` tagged with the node span, and the node stays
in `Hypothesis` state — but with the promoted candidate removed from the
list (promotion consumes it). -/
theorem c5_promotion_failure_behaviour (fm : List (String × GodotValue))
    (s : String) (hs : List Hypo) (pd : List (String × GodotValue))
    (sp : Position) (i : Nat) (e : DynErr)
    (hb : bestIdx hs = some i)
    (hp : (hs.getD i deadHypo).promote = .error e) :
    process_node fm (.mk s (.hypothesis hs) [] pd [] sp) =
      (.error (.hypothesisPromotionFailed e sp),
       .mk s (.hypothesis (hs.eraseIdx i)) [] pd [] sp) := by
  simp only [process_node, processChildList, processConstList, hb, hp]

/-- Witness for the amended C5 at a concrete input. -/
theorem c5_witness :
    bestIdx [Hypo.sentenceError (.noMatch "s") "s"] = some 0 ∧
    ([Hypo.sentenceError (.noMatch "s") "s"].getD 0 deadHypo).promote =
      .error (.sentenceParse (.noMatch "s")) ∧
    process_node []
        (.mk "s" (.hypothesis [Hypo.sentenceError (.noMatch "s") "s"])
          [] [] [] ⟨3, 9⟩) =
      (.error (.hypothesisPromotionFailed (.sentenceParse (.noMatch "s"))
         ⟨3, 9⟩),
       .mk "s" (.hypothesis []) [] [] [] ⟨3, 9⟩) :=
  ⟨rfl, rfl,
   c5_promotion_failure_behaviour [] "s" _ [] ⟨3, 9⟩ 0 _ rfl rfl⟩

/-! ## Claim C9 -/

/-- C9 counterexample: resolving and validating `"Deals 42."` against
`DamageEffect: ["Deals {damage: int}"]` yields a resource whose fields hold
`damage ↦ Int 42` **and** the translation-key field `doke_tr_key` — two
keys, not the single key `damage` the claim asserts (hasher instantiated to
the constant-zero function; the key set does not depend on it). -/
theorem c9_counterexample :
    (validate_tree []
        [(process_with_depth (fun _ => 0) damageGrammar [] 2 dealsNode
            0).getD dealsNode]).1 =
      .ok [GodotValue.resource "DamageEffect"
        [("damage", .int 42), ("doke_tr_key", .string "DAMAGE_EFFECT_A")]] ∧
    ["damage", "doke_tr_key"] ≠ ["damage"] :=
  ⟨rfl, by decide⟩

/-- C9 as amended: for every hasher, the pipeline yields
`Resource("DamageEffect")` whose fields are exactly `damage ↦ Int 42` plus
`doke_tr_key ↦ the entry translation key`. -/
theorem c9_end_to_end (hash : String → Nat) :
    (validate_tree []
        [(process_with_depth hash damageGrammar [] 2 dealsNode 0).getD
          dealsNode]).1 =
      .ok [GodotValue.resource "DamageEffect"
        [("damage", .int 42),
         ("doke_tr_key", .string (make_tr_key hash
           (phraseOfTemplate "DamageEffect" "Deals {damage: int}")))]] := by
  rfl

/-! ## Claim C7 -/

/-- Every `Except` result is counted exactly once by the value/error
partition. -/
theorem exceptOk_err_length {E A : Type} (l : List (Except E A)) :
    (l.filterMap exceptOk).length + (l.filterMap exceptErr).length =
      l.length := by
  induction l with
  | nil => rfl
  | cons r rest ih =>
      cases r with
      | ok v =>
          simp only [List.filterMap_cons, exceptOk, exceptErr,
            List.length_cons]
          omega
      | error e =>
          simp only [List.filterMap_cons, exceptOk, exceptErr,
            List.length_cons]
          omega

/-- C7: validation maps `process_node` over every root independently and
aggregates: the value and error counts partition the roots; no failures
yield all values (one per root), exactly one failure yields that error, and
`k ≥ 2` failures yield `MultipleErrors` holding exactly those `k` errors in
root order. -/
theorem c7_root_aggregation (fm : List (String × GodotValue))
    (roots : List DokeNode) :
    (((roots.map (process_node fm)).map (fun p => p.1)).filterMap
        exceptOk).length +
      (((roots.map (process_node fm)).map (fun p => p.1)).filterMap
        exceptErr).length = roots.length ∧
    ((((roots.map (process_node fm)).map (fun p => p.1)).filterMap
        exceptErr) = [] →
      (validate_tree fm roots).1 =
        .ok (((roots.map (process_node fm)).map (fun p => p.1)).filterMap
          exceptOk)) ∧
    (∀ e,
      (((roots.map (process_node fm)).map (fun p => p.1)).filterMap
        exceptErr) = [e] →
      (validate_tree fm roots).1 = .error e) ∧
    (2 ≤ (((roots.map (process_node fm)).map (fun p => p.1)).filterMap
        exceptErr).length →
      (validate_tree fm roots).1 =
        .error (.multipleErrors
          (((roots.map (process_node fm)).map (fun p => p.1)).filterMap
            exceptErr))) := by
  refine ⟨?_, ?_, ?_, ?_⟩
  · have h := exceptOk_err_length
      ((roots.map (process_node fm)).map (fun p => p.1))
    simpa using h
  · intro he
    simp only [validate_tree]
    rw [he]
  · intro e he
    simp only [validate_tree]
    rw [he]
  · intro hk
    simp only [validate_tree]
    rcases hl : ((roots.map (process_node fm)).map (fun p => p.1)).filterMap
        exceptErr with _ | ⟨a, t⟩
    · rw [hl] at hk; simp at hk
    · rcases ht : t with _ | ⟨b, t2⟩
      · subst ht
        rw [hl] at hk
        simp at hk
      · subst ht
        rw [hl]


/-- Witness for C7 at concrete inputs: one healthy root, a single failing
root among two, and two failing roots among three — the multi-error case
carries exactly the two errors. -/
theorem c7_witness :
    (validate_tree [] [okRoot]).1 = .ok [.int 1] ∧
    (validate_tree [] [okRoot, badRoot1]).1 =
      .error (.unresolvedNode "u1") ∧
    (validate_tree [] [badRoot1, okRoot, badRoot2]).1 =
      .error (.multipleErrors
        [.unresolvedNode "u1", .unresolvedNode "u2"]) :=
  ⟨(c7_root_aggregation [] [okRoot]).2.1 rfl,
   (c7_root_aggregation [] [okRoot, badRoot1]).2.2.1 _ rfl,
   (c7_root_aggregation [] [badRoot1, okRoot, badRoot2]).2.2.2
     (by decide)⟩

/-! ## Claim C8 -/

/-- C8 counterexample: both templates match `"A 12 B"` with one parameter
each; the `LongT` template has both the longer template text (19 vs 12) and
the larger literal character count (5 vs 4), yet resolution selects the
`ShortT` entry, because the implicit-`string` placeholder of `LongT`
carries penalty 12 + 6 + 4 which saturates its specificity to 0. -/
theorem c8_counterexample :
    (match_phrase_exact "A 12 B" longPhrase).isSome = true ∧
    (match_phrase_exact "A 12 B" shortPhrase).isSome = true ∧
    longPhrase.parameters.length = shortPhrase.parameters.length ∧
    shortPhrase.pattern.length < longPhrase.pattern.length ∧
    segLitCount shortPhrase.segs < segLitCount longPhrase.segs ∧
    (process_with_depth (fun _ => 0) specGrammar [] 2 specNode 0).bind
      resolvedTypeName = some "ShortT" :=
  ⟨rfl, rfl, rfl, by decide, by decide, rfl⟩

/-- `specLe` is total. -/
theorem specLe_total (a b : Nat × Nat) :
    specLe a b = true ∨ specLe b a = true := by
  simp only [specLe, Bool.or_eq_true, decide_eq_true_eq, Bool.and_eq_true]
  omega

/-- `specLe` is transitive. -/
theorem specLe_trans {a b c : Nat × Nat} (h1 : specLe a b = true)
    (h2 : specLe b c = true) : specLe a c = true := by
  simp only [specLe, Bool.or_eq_true, decide_eq_true_eq,
    Bool.and_eq_true] at h1 h2 ⊢
  omega

/-- The selected element of `selectGreatest` is one of the inputs. -/
theorem selectGreatest_mem {α : Type} (key : α → Nat × Nat) (x0 : α)
    (xs : List α) :
    selectGreatest key x0 xs = x0 ∨ selectGreatest key x0 xs ∈ xs := by
  induction xs generalizing x0 with
  | nil => exact Or.inl rfl
  | cons y ys ih =>
      simp only [selectGreatest, List.foldl_cons]
      by_cases h : specLe (key x0) (key y) = true
      · rw [if_pos h]
        have ih2 := ih y
        simp only [selectGreatest] at ih2
        rcases ih2 with h2 | h2
        · exact Or.inr (by rw [h2]; exact List.mem_cons_self _ _)
        · exact Or.inr (List.mem_cons_of_mem _ h2)
      · rw [if_neg h]
        have ih2 := ih x0
        simp only [selectGreatest] at ih2
        rcases ih2 with h2 | h2
        · exact Or.inl h2
        · exact Or.inr (List.mem_cons_of_mem _ h2)

/-- The selected element of `selectGreatest` has a key at least as great
(in the lexicographic specificity order) as the seed and every listed
element. -/
theorem selectGreatest_ge {α : Type} (key : α → Nat × Nat) (x0 : α)
    (xs : List α) :
    specLe (key x0) (key (selectGreatest key x0 xs)) = true ∧
    ∀ q ∈ xs, specLe (key q) (key (selectGreatest key x0 xs)) = true := by
  induction xs generalizing x0 with
  | nil =>
      refine ⟨?_, by simp⟩
      simp [selectGreatest, specLe]
  | cons y ys ih =>
      simp only [selectGreatest, List.foldl_cons]
      by_cases h : specLe (key x0) (key y) = true
      · rw [if_pos h]
        have ihy := ih y
        simp only [selectGreatest] at ihy
        refine ⟨specLe_trans h ihy.1, ?_⟩
        intro q hq
        rcases List.mem_cons.mp hq with h2 | h2
        · rw [h2]; exact ihy.1
        · exact ihy.2 q h2
      · rw [if_neg h]
        have ihx := ih x0
        simp only [selectGreatest] at ihx
        refine ⟨ihx.1, ?_⟩
        intro q hq
        rcases List.mem_cons.mp hq with h2 | h2
        · rw [h2]
          rcases specLe_total (key y) (key x0) with h3 | h3
          · exact specLe_trans h3 ihx.1
          · exact absurd h3 (by simpa using h)
        · exact ihx.2 q h2

/-- Shifting the seed of an additive fold. -/
theorem foldl_add_shift (g : ParameterDefinition → Nat)
    (l : List ParameterDefinition) (c : Nat) :
    l.foldl (fun acc pd => acc + g pd) c =
      c + l.foldl (fun acc pd => acc + g pd) 0 := by
  induction l generalizing c with
  | nil => simp
  | cons pd rest ih =>
      simp only [List.foldl_cons]
      rw [ih (c + g pd), ih (0 + g pd)]
      omega

/-- A saturating-subtraction fold subtracts the total. -/
theorem foldl_sub_total (g : ParameterDefinition → Nat)
    (l : List ParameterDefinition) (a : Nat) :
    l.foldl (fun acc pd => acc - g pd) a =
      a - l.foldl (fun acc pd => acc + g pd) 0 := by
  induction l generalizing a with
  | nil => simp
  | cons pd rest ih =>
      simp only [List.foldl_cons]
      rw [ih (a - g pd), foldl_add_shift g rest (0 + g pd)]
      omega

/-- The first specificity component is the template length minus the total
parameter penalty (saturating). -/
theorem spec_fst (p : PhraseConfig) :
    (phrase_specificity p).1 = p.pattern.length - phrasePenalty p := by
  simp only [phrase_specificity, phrasePenalty]
  exact foldl_sub_total _ _ _

/-- C8 as amended: (i) the entry selected among the matches is one of them
and maximises the specificity key
`(template length − Σ (name len + type len + 4), usize::MAX − #params)` in
the lexicographic order; (ii) for two matching templates with the same
parameter count and *equal total penalties*, the longer template is
selected whenever its remaining weight is positive — the original
longer-always-wins guarantee holds only under these extra conditions (the
counterexample shows it fails in general). -/
theorem c8_specificity_selection :
    (∀ (x0 : PhraseConfig × List (String × String))
       (xs : List (PhraseConfig × List (String × String))),
      (selectGreatest (fun pr => phrase_specificity pr.1) x0 xs = x0 ∨
        selectGreatest (fun pr => phrase_specificity pr.1) x0 xs ∈ xs) ∧
      specLe (phrase_specificity x0.1)
        (phrase_specificity
          (selectGreatest (fun pr => phrase_specificity pr.1) x0 xs).1) =
        true ∧
      (∀ q ∈ xs,
        specLe (phrase_specificity q.1)
          (phrase_specificity
            (selectGreatest (fun pr => phrase_specificity pr.1) x0 xs).1) =
          true)) ∧
    (∀ (p1 p2 : PhraseConfig) (r1 r2 : List (String × String)),
      p1.parameters.length = p2.parameters.length →
      phrasePenalty p1 = phrasePenalty p2 →
      p2.pattern.length < p1.pattern.length →
      phrasePenalty p1 < p1.pattern.length →
      selectGreatest (fun pr => phrase_specificity pr.1) (p1, r1)
          [(p2, r2)] = (p1, r1) ∧
      selectGreatest (fun pr => phrase_specificity pr.1) (p2, r2)
          [(p1, r1)] = (p1, r1)) := by
  constructor
  · intro x0 xs
    refine ⟨selectGreatest_mem (fun pr => phrase_specificity pr.1) x0 xs,
      ?_, ?_⟩
    · exact (selectGreatest_ge (fun pr => phrase_specificity pr.1) x0 xs).1
    · exact (selectGreatest_ge (fun pr => phrase_specificity pr.1) x0 xs).2
  · intro p1 p2 r1 r2 hn hpen hlen hpos
    have h1 := spec_fst p1
    have h2 := spec_fst p2
    have hlt : (phrase_specificity p2).1 < (phrase_specificity p1).1 := by
      rw [h1, h2, hpen]
      omega
    have hle12 : specLe (phrase_specificity p1) (phrase_specificity p2) =
        false := by
      simp only [specLe, Bool.or_eq_false_iff, decide_eq_false_iff_not,
        Bool.and_eq_false_iff]
      omega
    have hle21 : specLe (phrase_specificity p2) (phrase_specificity p1) =
        true := by
      simp only [specLe, Bool.or_eq_true, decide_eq_true_eq]
      omega
    constructor
    · simp only [selectGreatest, List.foldl_cons, List.foldl_nil, hle12,
        Bool.false_eq_true, if_false]
    · simp only [selectGreatest, List.foldl_cons, List.foldl_nil, hle21,
        if_true]

/-- Witness for the amended C8 at concrete inputs: `w1Phrase` and
`w2Phrase` have one parameter each with equal penalties 8, lengths 16 and
14, and the longer one is selected from either order; the argmax clause is
exercised on the two counterexample templates. -/
theorem c8_witness :
    (selectGreatest (fun pr => phrase_specificity pr.1)
        (longPhrase, ([] : List (String × String))) [(shortPhrase, [])] =
        (longPhrase, []) ∨
      selectGreatest (fun pr => phrase_specificity pr.1)
        (longPhrase, ([] : List (String × String))) [(shortPhrase, [])] ∈
        [(shortPhrase, ([] : List (String × String)))]) ∧
    selectGreatest (fun pr => phrase_specificity pr.1)
        (w1Phrase, ([] : List (String × String))) [(w2Phrase, [])] =
      (w1Phrase, []) ∧
    selectGreatest (fun pr => phrase_specificity pr.1)
        (w2Phrase, ([] : List (String × String))) [(w1Phrase, [])] =
      (w1Phrase, []) :=
  ⟨(c8_specificity_selection.1 (longPhrase, []) [(shortPhrase, [])]).1,
   (c8_specificity_selection.2 w1Phrase w2Phrase [] [] rfl rfl
      (by decide) (by decide)).1,
   (c8_specificity_selection.2 w1Phrase w2Phrase [] [] rfl rfl
      (by decide) (by decide)).2⟩

/-! ## Claim C4 -/

/-- Membership in a priority insertion. -/
theorem mem_insertByPriority {x y : TypeRule} {l : List TypeRule}
    (h : y ∈ insertByPriority x l) : y = x ∨ y ∈ l := by
  induction l with
  | nil => simpa [insertByPriority] using h
  | cons z rest ih =>
      simp only [insertByPriority] at h
      by_cases hc : x.priority ≤ z.priority
      · rw [if_pos hc] at h
        rcases List.mem_cons.mp h with h2 | h2
        · exact Or.inr (by rw [h2]; exact List.mem_cons_self _ _)
        · rcases ih h2 with h3 | h3
          · exact Or.inl h3
          · exact Or.inr (List.mem_cons_of_mem _ h3)
      · rw [if_neg hc] at h
        rcases List.mem_cons.mp h with h2 | h2
        · exact Or.inl h2
        · exact Or.inr h2

/-- Membership in the sorted rule list comes from the input (stated over
the fold with a general seed). -/
theorem mem_sortFold {y : TypeRule} (l : List TypeRule)
    (acc : List TypeRule)
    (h : y ∈ l.foldl (fun acc x => insertByPriority x acc) acc) :
    y ∈ acc ∨ y ∈ l := by
  induction l generalizing acc with
  | nil => exact Or.inl h
  | cons x rest ih =>
      simp only [List.foldl_cons] at h
      rcases ih (insertByPriority x acc) h with h2 | h2
      · rcases mem_insertByPriority h2 with h3 | h3
        · exact Or.inr (by rw [h3]; exact List.mem_cons_self _ _)
        · exact Or.inl h3
      · exact Or.inr (List.mem_cons_of_mem _ h2)

/-- Every rule produced by the loading loop carries the empty child
specification. -/
theorem loadRules_children_empty
    (loadSP : String → String → Option SentenceParser)
    (rules : List PreRule) (out : List TypeRule)
    (h : loadRules loadSP rules = some out) :
    ∀ r ∈ out, r.children = ChildSpec.simple [] := by
  induction rules generalizing out with
  | nil =>
      simp only [loadRules, Option.some.injEq] at h
      subst h
      intro r hr
      exact absurd hr (List.not_mem_nil r)
  | cons p rest ih =>
      simp only [loadRules] at h
      rcases hl : loadSP p.parser_pat p.target_type with _ | sp
      · rw [hl] at h; exact absurd h (by simp)
      · rw [hl] at h
        rcases hr : loadRules loadSP rest with _ | rs
        · rw [hr] at h; exact absurd h (by simp)
        · rw [hr] at h
          simp only [Option.some.injEq] at h
          subst h
          intro r hmem
          rcases List.mem_cons.mp hmem with h2 | h2
          · rw [h2]
          · exact ih rs hr r h2

/-- C4 counterexample: a rule configured with the non-empty child
specification `children: [P]` is loaded with the **empty** specification
instead, fails the parent-type filter even for the very parent type `P` it
was configured to allow, and an empty specification never passes the filter
for a named parent (while the configured specification would have). -/
theorem c4_counterexample :
    from_config_rules loadTrivial [ruleCfgA] = some [ruleLoadedA] ∧
    parse_rule ruleCfgA =
      some ⟨"A", "g", 0, ChildSpec.simple ["P"]⟩ ∧
    ruleLoadedA.children = ChildSpec.simple [] ∧
    ruleLoadedA.children ≠ ChildSpec.simple ["P"] ∧
    rule_matches_parent ruleLoadedA (some "P") = false ∧
    ChildSpec.allowed (.simple ["P"]) "P" = true ∧
    ChildSpec.allowed (.simple []) "P" = false :=
  ⟨rfl, rfl, rfl, by decide, rfl, by decide, rfl⟩

/-- C4 as amended: (i) every rule built by `from_config` carries the empty
child specification (the configured one is not retained); (ii) a root
(no parent) passes every rule through the filter; (iii) an empty flat
specification never passes the filter for a named parent; (iv) hence for
loaded rules and a named parent the scoped pass tries no rule and dispatch
is decided entirely by the all-rules retry; (v) for a root the scoped pass
already contains all rules. -/
theorem c4_child_spec_discarded :
    (∀ (loadSP : String → String → Option SentenceParser) cfg rules,
      from_config_rules loadSP cfg = some rules →
      ∀ r ∈ rules, r.children = ChildSpec.simple []) ∧
    (∀ r : TypeRule, rule_matches_parent r none = true) ∧
    (∀ p : String, ChildSpec.allowed (.simple []) p = false) ∧
    (∀ (hash : String → Nat) (fuel : Nat) fm rules (p : String) node,
      (∀ r ∈ rules, r.children = ChildSpec.simple []) →
      node.state.isUnresolvedB = true →
      resolveWithRules hash fuel fm rules (some p) node =
        tryRulesLoop hash fuel fm (sortByPriorityDesc rules) node) ∧
    (∀ rules : List TypeRule,
      rules.filter (fun r => rule_matches_parent r none) = rules) := by
  refine ⟨?_, ?_, ?_, ?_, ?_⟩
  · intro loadSP cfg rules h r hr
    rcases hp : parseRules cfg with _ | pre
    · simp only [from_config_rules, hp] at h
      exact absurd h (by simp)
    · rcases hl : loadRules loadSP pre with _ | loaded
      · simp only [from_config_rules, hp, hl, Option.map_none'] at h
        exact absurd h (by simp)
      · simp only [from_config_rules, hp, hl, Option.map_some',
          Option.some.injEq] at h
        subst h
        have hmem : r ∈ loaded := by
          rcases mem_sortFold loaded [] hr with h2 | h2
          · exact absurd h2 (List.not_mem_nil r)
          · exact h2
        exact loadRules_children_empty loadSP pre loaded hl r hmem
  · intro r; rfl
  · intro p; rfl
  · intro hash fuel fm rules p node hemp hu
    have hfilter : rules.filter (fun r => rule_matches_parent r (some p)) =
        [] := by
      rw [List.filter_eq_nil_iff]
      intro r hr
      have hc := hemp r hr
      simp only [rule_matches_parent, hc, ChildSpec.allowed]
      simp
    simp only [resolveWithRules, hu, if_true, hfilter]
    simp only [sortByPriorityDesc, List.foldl_nil, tryRulesLoop, hu,
      if_true]
  · intro rules
    simp [rule_matches_parent, List.filter_eq_self]

/-- Witness for the amended C4 at a concrete input: the rule loaded from
`ruleCfgA` has the empty specification, and dispatch for parent `P` reduces
to the unscoped retry. -/
theorem c4_witness :
    ruleLoadedA.children = ChildSpec.simple [] ∧
    resolveWithRules (fun _ => 0) 1 [] [ruleLoadedA] (some "P") xyzNode =
      tryRulesLoop (fun _ => 0) 1 [] (sortByPriorityDesc [ruleLoadedA])
        xyzNode :=
  ⟨c4_child_spec_discarded.1 loadTrivial [ruleCfgA] [ruleLoadedA] rfl
     ruleLoadedA (List.mem_singleton.mpr rfl),
   c4_child_spec_discarded.2.2.2.1 (fun _ => 0) 1 [] [ruleLoadedA] "P"
     xyzNode
     (by intro r hr
         rw [List.mem_singleton.mp hr]
         rfl)
     rfl⟩

/-! ## Claim C10 -/

/-- A failed rule attempt on an unresolved node restores the unresolved
state (helper). -/
theorem tryRule_false_unresolved {hash : String → Nat} {fuel : Nat}
    {fm : List (String × GodotValue)} {rule : TypeRule} {node n2 : DokeNode}
    (hu : node.state = .unresolved)
    (h : try_process_with_rule hash fuel fm rule node = some (false, n2)) :
    n2.state = .unresolved := by
  rcases hp : process_with_depth hash rule.sentenceParser fm fuel node 0
      with _ | n3
  · simp only [try_process_with_rule, hu, DokeNodeState.isUnresolvedB, hp]
      at h
    exact absurd h (by simp)
  · by_cases hres : n3.state.isResolvedB = true
    · simp only [try_process_with_rule, hu, DokeNodeState.isUnresolvedB,
        hp, hres, if_true] at h
      exact absurd h (by simp)
    · simp only [try_process_with_rule, hu, DokeNodeState.isUnresolvedB,
        hp, hres, Bool.false_eq_true, if_false, if_true,
        Option.some.injEq, Prod.mk.injEq] at h
      rw [← h.2]
      exact withState_state n3 .unresolved

/-- A successful rule attempt leaves the node resolved (helper). -/
theorem tryRule_true_resolved {hash : String → Nat} {fuel : Nat}
    {fm : List (String × GodotValue)} {rule : TypeRule} {node n2 : DokeNode}
    (h : try_process_with_rule hash fuel fm rule node = some (true, n2)) :
    n2.state.isResolvedB = true := by
  rcases hp : process_with_depth hash rule.sentenceParser fm fuel node 0
      with _ | n3
  · simp only [try_process_with_rule, hp] at h
    exact absurd h (by simp)
  · by_cases hres : n3.state.isResolvedB = true
    · simp only [try_process_with_rule, hp, hres, if_true,
        Option.some.injEq, Prod.mk.injEq] at h
      rw [← h.2, insertParseData_state]
      exact hres
    · simp only [try_process_with_rule, hp, hres, Bool.false_eq_true,
        if_false, Option.some.injEq, Prod.mk.injEq] at h
      exact absurd h.1 (by simp)

/-- After a full rule pass an unresolved node is either resolved or still
unresolved (helper). -/
theorem tryLoop_state {hash : String → Nat} {fuel : Nat}
    {fm : List (String × GodotValue)} {rules : List TypeRule}
    {node n2 : DokeNode}
    (hu : node.state = .unresolved)
    (h : tryRulesLoop hash fuel fm rules node = some n2) :
    n2.state = .unresolved ∨ n2.state.isResolvedB = true := by
  induction rules generalizing node with
  | nil =>
      simp only [tryRulesLoop, Option.some.injEq] at h
      exact Or.inl (h ▸ hu)
  | cons r rest ih =>
      simp only [tryRulesLoop] at h
      rcases ht : try_process_with_rule hash fuel fm r node with _ | p
      · rw [ht] at h
        exact absurd h (by simp)
      · rw [ht] at h
        rcases p with ⟨b, n3⟩
        cases b with
        | true =>
            simp only [Option.some.injEq] at h
            exact Or.inr (h ▸ tryRule_true_resolved ht)
        | false =>
            exact ih (tryRule_false_unresolved hu ht) h

/-- C10: (i) when a rule attempt on an unresolved node does not leave it
resolved, the dispatcher restores the `Unresolved` state — any hypothesis
(including the negative-confidence no-match record) or error produced
during the attempt is discarded; (ii) a full rule pass leaves an
unresolved node either resolved or unresolved; (iii) hence after the whole
two-pass dispatch a node no rule resolved is still `Unresolved`. -/
theorem c10_failed_attempts_restore_unresolved :
    (∀ (hash : String → Nat) (fuel : Nat) fm (rule : TypeRule)
       (node n2 : DokeNode),
      node.state = .unresolved →
      try_process_with_rule hash fuel fm rule node = some (false, n2) →
      n2.state = .unresolved) ∧
    (∀ (hash : String → Nat) (fuel : Nat) fm (rules : List TypeRule)
       (node n2 : DokeNode),
      node.state = .unresolved →
      tryRulesLoop hash fuel fm rules node = some n2 →
      n2.state = .unresolved ∨ n2.state.isResolvedB = true) ∧
    (∀ (hash : String → Nat) (fuel : Nat) fm (rules : List TypeRule)
       (parent : Option String) (node n2 : DokeNode),
      node.state = .unresolved →
      resolveWithRules hash fuel fm rules parent node = some n2 →
      n2.state.isResolvedB = true ∨ n2.state = .unresolved) := by
  refine ⟨?_, ?_, ?_⟩
  · intro hash fuel fm rule node n2 hu h
    exact tryRule_false_unresolved hu h
  · intro hash fuel fm rules node n2 hu h
    exact tryLoop_state hu h
  · intro hash fuel fm rules parent node n2 hu h
    have hu2 : node.state.isUnresolvedB = true := by
      rw [hu]; rfl
    rcases h1 : tryRulesLoop hash fuel fm
        (sortByPriorityDesc (rules.filter
          (fun r => rule_matches_parent r parent))) node with _ | n3
    · simp only [resolveWithRules, hu2, if_true, h1] at h
      exact absurd h (by simp)
    · rcases tryLoop_state hu h1 with h2 | h2
      · have h2b : n3.state.isUnresolvedB = true := by
          rw [h2]; rfl
        simp only [resolveWithRules, hu2, if_true, h1, h2b] at h
        rcases tryLoop_state h2 h with h3 | h3
        · exact Or.inr h3
        · exact Or.inl h3
      · have hn3 : n3.state.isUnresolvedB = false := by
          rcases hst : n3.state with _ | hs | out | msg
          · rw [hst] at h2
            simp [DokeNodeState.isResolvedB] at h2
          · rfl
          · rfl
          · rfl
        simp only [resolveWithRules, hu2, if_true, h1, hn3,
          Bool.false_eq_true, if_false, Option.some.injEq] at h
        exact Or.inl (h ▸ h2)

/-- Witness for C10 at a concrete input: a rule whose grammar set is empty
leaves `fooNode` with a no-match hypothesis, which the dispatcher discards,
restoring `Unresolved`; the full dispatch therefore also ends
`Unresolved`. -/
theorem c10_witness :
    fooNode.state = DokeNodeState.unresolved ∧
    try_process_with_rule (fun _ => 0) 1 [] emptyRule fooNode =
      some (false, fooNode) ∧
    ((try_process_with_rule (fun _ => 0) 1 [] emptyRule
        fooNode).getD (false, fooNode)).2.state = DokeNodeState.unresolved ∧
    resolveWithRules (fun _ => 0) 1 [] [emptyRule] (some "P") fooNode =
      some fooNode ∧
    (DokeNodeState.unresolved.isResolvedB = true ∨
      fooNode.state = DokeNodeState.unresolved) :=
  ⟨rfl, rfl,
   c10_failed_attempts_restore_unresolved.1 (fun _ => 0) 1 [] emptyRule
     fooNode _ rfl rfl,
   rfl,
   c10_failed_attempts_restore_unresolved.2.2 (fun _ => 0) 1 [] [emptyRule]
     (some "P") fooNode fooNode rfl rfl⟩

/-! ## Claim C3 -/

/-- The name capture of a `param_re` match is exactly the leading run of
characters that are neither `}` nor `:`. -/
theorem tryPlaceholder_name_eq {rest nm : List Char}
    {ty : Option (List Char)} {tail : List Char}
    (h : tryPlaceholder ('{' :: rest) = some (nm, ty, tail)) :
    nm = rest.takeWhile (fun c => !(c = '}' || c = ':')) := by
  simp only [tryPlaceholder, if_pos] at h
  by_cases he : (rest.takeWhile (fun c => !(c = '}' || c = ':'))).isEmpty =
      true
  · rw [if_pos he] at h
    exact absurd h (by simp)
  · rw [if_neg he] at h
    rcases hd : rest.drop
        (rest.takeWhile (fun c => !(c = '}' || c = ':'))).length with
      _ | ⟨c1, t1⟩
    · rw [hd] at h
      exact absurd h (by simp)
    · rw [hd] at h
      by_cases h1 : c1 = '}'
      · subst h1
        simp only [Option.some.injEq, Prod.mk.injEq] at h
        exact h.1.symm
      · by_cases h2 : c1 = ':'
        · subst h2
          simp only [h1] at h
          by_cases h3 : (t1.takeWhile (fun c => c ≠ '}')).isEmpty = true
          · rw [if_pos h3] at h
            exact absurd h (by simp)
          · rw [if_neg h3] at h
            rcases h4 : t1.drop (t1.takeWhile (fun c => c ≠ '}')).length
                with _ | ⟨c2, t2⟩
            · rw [h4] at h
              exact absurd h (by simp)
            · rw [h4] at h
              by_cases h5 : c2 = '}'
              · subst h5
                simp only [Option.some.injEq, Prod.mk.injEq] at h
                exact h.1.symm
              · split at h
                · rename_i tail2 heq
                  injection heq with hq1 hq2
                  exact absurd hq1 h5
                · exact absurd h (by simp)
        · split at h
          · rename_i tail2 heq
            injection heq with hq1 hq2
            exact absurd hq1 h1
          · rename_i t2b heq
            injection heq with hq1 hq2
            exact absurd hq1 h2
          · exact absurd h (by simp)

/-- `pushLitChar` only produces literal and whitespace segments. -/
theorem pushLitChar_no_opt {segs : List Seg} {c : Char}
    (h : ∀ sg ∈ segs, sg.isOptB = false) :
    ∀ sg ∈ pushLitChar segs c, sg.isOptB = false := by
  intro sg hg
  by_cases hw : isWsChar c = true
  all_goals
    rcases segs with _ | ⟨s0, rest⟩
  · simp only [pushLitChar, hw, if_true] at hg
    rcases List.mem_cons.mp hg with h2 | h2
    · rw [h2]; rfl
    · exact absurd h2 (List.not_mem_nil sg)
  · cases s0 with
    | ws =>
        simp only [pushLitChar, hw, if_true] at hg
        exact h sg hg
    | lit l =>
        simp only [pushLitChar, hw, if_true] at hg
        rcases List.mem_cons.mp hg with h2 | h2
        · rw [h2]; rfl
        · exact h sg h2
    | cap k =>
        simp only [pushLitChar, hw, if_true] at hg
        rcases List.mem_cons.mp hg with h2 | h2
        · rw [h2]; rfl
        · exact h sg h2
    | optWsCap k =>
        simp only [pushLitChar, hw, if_true] at hg
        rcases List.mem_cons.mp hg with h2 | h2
        · rw [h2]; rfl
        · exact h sg h2
  · simp only [pushLitChar, hw, Bool.false_eq_true, if_false] at hg
    rcases List.mem_cons.mp hg with h2 | h2
    · rw [h2]; rfl
    · exact absurd h2 (List.not_mem_nil sg)
  · cases s0 with
    | lit l =>
        simp only [pushLitChar, hw, Bool.false_eq_true, if_false] at hg
        rcases List.mem_cons.mp hg with h2 | h2
        · rw [h2]; rfl
        · exact h sg (List.mem_cons_of_mem _ h2)
    | ws =>
        simp only [pushLitChar, hw, Bool.false_eq_true, if_false] at hg
        rcases List.mem_cons.mp hg with h2 | h2
        · rw [h2]; rfl
        · exact h sg h2
    | cap k =>
        simp only [pushLitChar, hw, Bool.false_eq_true, if_false] at hg
        rcases List.mem_cons.mp hg with h2 | h2
        · rw [h2]; rfl
        · exact h sg h2
    | optWsCap k =>
        simp only [pushLitChar, hw, Bool.false_eq_true, if_false] at hg
        rcases List.mem_cons.mp hg with h2 | h2
        · rw [h2]; rfl
        · exact h sg h2

/-- No scanner output ever contains the optional wrapper: the name capture
cannot contain a `:`, so `name.ends_with(":?")` is always false and the
`(?:\s+G)?` wrapper is never emitted. -/
theorem scanPhrase_no_opt (fuel : Nat) :
    ∀ (segs : List Seg) (ps : List ParameterDefinition) (l : List Char),
      (∀ sg ∈ segs, sg.isOptB = false) →
      ∀ sg ∈ (scanPhrase fuel segs ps l).1, sg.isOptB = false := by
  induction fuel with
  | zero =>
      intro segs ps l hs sg hg
      simp only [scanPhrase] at hg
      exact hs sg (List.mem_reverse.mp hg)
  | succ n ih =>
      intro segs ps l hs sg hg
      rcases l with _ | ⟨c, rest⟩
      · simp only [scanPhrase] at hg
        exact hs sg (List.mem_reverse.mp hg)
      · rcases htp : tryPlaceholder (c :: rest) with _ | ⟨nm, tyOpt, tail⟩
        · simp only [scanPhrase, htp] at hg
          exact ih (pushLitChar segs c) ps rest (pushLitChar_no_opt hs) sg
            hg
        · by_cases hc : c = '{'
          · subst hc
            have hcol : ∀ ch ∈ nm, ch ≠ ':' := by
              intro ch hch
              have hnm := tryPlaceholder_name_eq htp
              rw [hnm] at hch
              have hpred := List.mem_takeWhile_imp hch
              simp only [Bool.not_eq_eq_eq_not, Bool.not_true,
                Bool.or_eq_false_iff, decide_eq_false_iff_not] at hpred
              exact hpred.2
            have hopt : strEndsWith (trimString ⟨nm⟩) ":?" = false := by
              apply strEndsWith_colon_free
              intro ch hch
              exact hcol ch (mem_trimChars hch)
            simp only [scanPhrase, htp, hopt, Bool.false_eq_true,
              if_false] at hg
            refine ih _ _ tail ?_ sg hg
            intro sg2 hg2
            rcases List.mem_cons.mp hg2 with h2 | h2
            · rw [h2]; rfl
            · exact hs sg2 h2
          · have hnone : tryPlaceholder (c :: rest) = none := by
              simp only [tryPlaceholder, hc, if_false]
            rw [hnone] at htp
            exact absurd htp (by simp)

/-- C3: the compiler never records a parameter as optional — (i) for every
template, the compiled pattern contains no optional wrapper segment;
(ii) at the failing input `"Deals {damage:?}"` the parameter is compiled
with name `damage` and type `?`, unwrapped, and (iii) the statement with
the parameter omitted (`"Deals"`) does not match — contradicting the
claimed optional-parameter behaviour (the `param_re` name class `[^}:]+`
cannot contain `:`, so `name.ends_with(":?")` is dead). -/
theorem c3_optional_flag_unreachable :
    (∀ (phrase : String) (sg : Seg),
      sg ∈ (build_regex_for_phrase phrase).1 → sg.isOptB = false) ∧
    build_regex_for_phrase "Deals {damage:?}" =
      ([.lit "Deals".data, .ws, .cap .str], [⟨"damage", "?"⟩]) ∧
    matchSegs [.lit "Deals".data, .ws, .cap .str] "Deals".data = none := by
  refine ⟨?_, rfl, rfl⟩
  intro phrase sg hg
  exact scanPhrase_no_opt (phrase.data.length + 1) [] [] phrase.data
    (by intro sg2 hg2; exact absurd hg2 (List.not_mem_nil sg2)) sg hg

/-- Witness for C3 at a concrete template and segment. -/
theorem c3_witness :
    Seg.ws ∈ (build_regex_for_phrase "Deals {damage:?}").1 ∧
    Seg.ws.isOptB = false :=
  ⟨by decide,
   c3_optional_flag_unreachable.1 "Deals {damage:?}" Seg.ws (by decide)⟩

/-! ## Claim C1 -/

/-- In the cyclic grammar, the single phrase matches `"foo"` and captures
the whole statement for its constituent. -/
theorem loop_ms_eval :
    loopGrammar.phrases.filterMap (fun p =>
      (match_phrase_exact (trimStatement "foo") p).map (fun raw => (p, raw)))
    = [(phraseOfTemplate "A" "{a: A}", [("a", "foo")])] := rfl

/-- The cyclic phrase declares one parameter `a` of complex type `A`. -/
theorem loop_phrase_params :
    (phraseOfTemplate "A" "{a: A}").parameters = [⟨"a", "A"⟩] := rfl

/-- One unfolding of the parameter loop on the cyclic phrase: the
constituent node with statement `"foo"` is handed to the recursion with
depth `0`, exactly as `parse_parameters` does (sentence.rs line 302). -/
theorem loop_params_step (f : DokeNode → Nat → Option DokeNode)
    (sp : Position) :
    parseParamsAux (fun c => f c 0) [("a", "foo")] sp
      [⟨"a", "A"⟩] ([], []) =
      match f ((create_constituent_node "foo" sp).insertParseData
          "sentence_type" (GodotValue.string "A")) 0 with
      | some child2 =>
          parseParamsAux (fun c => f c 0) [("a", "foo")] sp []
            ([], ainsert [] "a" child2)
      | none => none := rfl

/-- C1: with the cyclic grammar `A: ["{a: A}"]`, resolving a matching
statement NEVER completes, for any amount of fuel: every constituent has
the same statement text and is resolved by a recursive call whose depth
argument is `0` (sentence.rs line 302), so the `depth > 100` guard never
fires and no depth-exceeded `Error` state is ever produced — the Rust
code recurses without bound instead of terminating within the bound of
100 as the claim states. -/
theorem c1_depth_guard_never_fires (hash : String → Nat) (fuel : Nat)
    (node : DokeNode) (hst : node.statement = "foo")
    (hu : node.state = .unresolved) :
    process_with_depth hash loopGrammar [] fuel node 0 = none := by
  induction fuel generalizing node with
  | zero => rfl
  | succ n ih =>
      obtain ⟨s, st, ch, pd, cn, sp⟩ := node
      simp only [DokeNode.statement] at hst
      simp only [DokeNode.state] at hu
      subst hst
      subst hu
      simp only [process_with_depth, processStep, DokeNode.state,
        DokeNodeState.isUnresolvedB, DokeNode.statement, DokeNode.span,
        loop_ms_eval, Bool.not_true, Bool.false_eq_true, if_false,
        selectGreatest, List.foldl_nil, loop_phrase_params,
        loop_params_step]
      rw [if_neg (by decide : ¬(0 > 100))]
      rw [ih ((create_constituent_node "foo" sp).insertParseData
        "sentence_type" (GodotValue.string "A")) rfl rfl]

/-- Witness for C1 at a concrete input: even with fuel for 30 nested
resolutions, resolving `"foo"` against the cyclic grammar does not
complete. -/
theorem c1_witness :
    fooNode.statement = "foo" ∧
    fooNode.state = DokeNodeState.unresolved ∧
    process_with_depth (fun _ => 0) loopGrammar [] 30 fooNode 0 = none :=
  ⟨rfl, rfl, c1_depth_guard_never_fires (fun _ => 0) 30 fooNode rfl rfl⟩

theorem parse_int_unfold (l : List Char) :
    parse_basic_parameter ⟨l⟩ "int" =
      (if startsWith2 l '0' 'b' || startsWith2 l '0' 'B' then
        (fromStrRadix 2 isBinChar (l.drop 2)).map GodotValue.int
      else if startsWith2 l '0' 'o' || startsWith2 l '0' 'O' then
        (fromStrRadix 8 isOctChar (l.drop 2)).map GodotValue.int
      else if startsWith2 l '0' 'x' || startsWith2 l '0' 'X' then
        (fromStrRadix 16 isHexChar (l.drop 2)).map GodotValue.int
      else (parseI64 l).map GodotValue.int) := rfl

theorem parse_float_unfold (l : List Char) :
    parse_basic_parameter ⟨l⟩ "float" =
      (if rustF64Ok l then some (GodotValue.float ⟨l⟩) else none) := rfl

theorem isDig_not_sign {c : Char} (h : isDigitChar c = true) :
    c ≠ '-' ∧ c ≠ '+' := by
  constructor <;> intro hc <;> rw [hc] at h <;> exact absurd h (by decide)

theorem dropSign_of_all {p : Char → Bool} {l : List Char}
    (hminus : p '-' = false) (hplus : p '+' = false)
    (hall : l.all p = true) : dropSign l = l := by
  rcases l with _ | ⟨c, r⟩
  · rfl
  · simp only [List.all_cons, Bool.and_eq_true] at hall
    have hc1 : c ≠ '-' := by
      intro h; rw [h] at hall; rw [hminus] at hall
      exact absurd hall.1 (by simp)
    have hc2 : c ≠ '+' := by
      intro h; rw [h] at hall; rw [hplus] at hall
      exact absurd hall.1 (by simp)
    simp [dropSign, hc1, hc2]

theorem dropSign_cons_sign {s : Char} {l : List Char}
    (hs : s = '-' ∨ s = '+') : dropSign (s :: l) = l := by
  rcases hs with h | h <;> subst h <;> rfl

theorem signFactor_cons (c : Char) (r : List Char) :
    signFactor (c :: r) = if c = '-' then -1 else 1 := by
  by_cases h : c = '-'
  · subst h
    rw [if_pos rfl]
    rfl
  · rw [if_neg h]
    unfold signFactor
    split
    · rename_i tail heq
      injection heq with h1 h2
      exact absurd h1 h
    · rfl

theorem signFactor_of_all {p : Char → Bool} {l : List Char}
    (hminus : p '-' = false) (hall : l.all p = true) :
    signFactor l = 1 := by
  rcases l with _ | ⟨c, r⟩
  · rfl
  · rw [signFactor_cons]
    simp only [List.all_cons, Bool.and_eq_true] at hall
    rw [if_neg (by
      intro h; rw [h] at hall; rw [hminus] at hall
      exact absurd hall.1 (by simp))]

theorem intMag_digits {l : List Char} (hall : l.all isDigitChar = true) :
    intMag l = digitsVal 10 l := by
  rcases l with _ | ⟨c, r⟩
  · rfl
  · rcases r with _ | ⟨c2, r2⟩
    · unfold intMag
      split
      · rename_i c3 rest3 heq
        injection heq with h1 h2
        simp at h2
      · rfl
    · have hd2 : isDigitChar c2 = true := by
        simp only [List.all_cons, Bool.and_eq_true] at hall
        exact hall.2.1
      have hb : c2 ≠ 'b' ∧ c2 ≠ 'B' ∧ c2 ≠ 'o' ∧ c2 ≠ 'O' ∧
          c2 ≠ 'x' ∧ c2 ≠ 'X' := by
        refine ⟨?_, ?_, ?_, ?_, ?_, ?_⟩ <;>
          (intro h; rw [h] at hd2; exact absurd hd2 (by decide))
      unfold intMag
      split
      · rename_i c3 rest3 heq
        injection heq with h1 h2
        injection h2 with h2a h2b
        subst h2a
        subst h2b
        rw [if_neg (by
            simp only [Bool.or_eq_true, decide_eq_true_eq]
            rintro (h | h)
            · exact hb.1 h
            · exact hb.2.1 h),
          if_neg (by
            simp only [Bool.or_eq_true, decide_eq_true_eq]
            rintro (h | h)
            · exact hb.2.2.1 h
            · exact hb.2.2.2.1 h),
          if_neg (by
            simp only [Bool.or_eq_true, decide_eq_true_eq]
            rintro (h | h)
            · exact hb.2.2.2.2.1 h
            · exact hb.2.2.2.2.2 h)]
      · rfl

theorem intMag_radix {b : Char} {r2 : List Char} (radix : Nat)
    (hsel : (radix = 2 ∧ (b = 'b' ∨ b = 'B')) ∨
            (radix = 8 ∧ (b = 'o' ∨ b = 'O')) ∨
            (radix = 16 ∧ (b = 'x' ∨ b = 'X'))) :
    intMag ('0' :: b :: r2) = digitsVal radix r2 := by
  rcases hsel with ⟨hrad, hb⟩ | ⟨hrad, hb⟩ | ⟨hrad, hb⟩ <;> subst hrad <;>
    rcases hb with h | h <;> subst h <;> rfl

theorem startsWith2_cons_ne {s : Char} {rest : List Char} {a b : Char}
    (h : s ≠ a) : startsWith2 (s :: rest) a b = false := by
  rcases rest with _ | ⟨y, t⟩
  · rfl
  · simp [startsWith2, h]

theorem startsWith2_digits_false {l : List Char}
    (hall : l.all isDigitChar = true) {a b : Char}
    (hb : isDigitChar b = false) : startsWith2 l a b = false := by
  rcases l with _ | ⟨x, _ | ⟨y, t⟩⟩
  · rfl
  · rfl
  · simp only [List.all_cons, Bool.and_eq_true] at hall
    have hy : y ≠ b := by
      intro h
      rw [h] at hall
      rw [hb] at hall
      exact absurd hall.2.1 (by simp)
    simp [startsWith2, hy]

theorem startsWith2_true {l : List Char} {a b : Char}
    (h : startsWith2 l a b = true) : ∃ t, l = a :: b :: t := by
  rcases l with _ | ⟨x, _ | ⟨y, t⟩⟩
  · exact absurd h (by simp [startsWith2])
  · exact absurd h (by simp [startsWith2])
  · simp only [startsWith2, Bool.and_eq_true, decide_eq_true_eq] at h
    exact ⟨t, by rw [h.1, h.2]⟩

theorem fromStrRadix_of_digits {radix : Nat} {isDig : Char → Bool}
    {l : List Char} (hminus : isDig '-' = false) (hplus : isDig '+' = false)
    (hne : l ≠ []) (hall : l.all isDig = true)
    (hlo : i64Min ≤ (digitsVal radix l : Int))
    (hhi : (digitsVal radix l : Int) ≤ i64Max) :
    fromStrRadix radix isDig l = some ((digitsVal radix l : Int)) := by
  have hds : dropSign l = l := dropSign_of_all hminus hplus hall
  have hje : l.isEmpty = false := by
    rcases l with _ | ⟨c, r⟩
    · exact absurd rfl hne
    · rfl
  simp only [fromStrRadix, hds, signFactor_of_all hminus hall, hje, hall,
    Bool.not_false, Bool.and_self, if_true, one_mul]
  rw [if_pos (by simp [hlo, hhi])]

theorem fromStrRadix_of_sign_digits {radix : Nat} {isDig : Char → Bool}
    {s : Char} {l : List Char} (hs : s = '-' ∨ s = '+')
    (hne : l ≠ []) (hall : l.all isDig = true)
    (hlo : i64Min ≤ signFactor (s :: l) * (digitsVal radix l : Int))
    (hhi : signFactor (s :: l) * (digitsVal radix l : Int) ≤ i64Max) :
    fromStrRadix radix isDig (s :: l) =
      some (signFactor (s :: l) * digitsVal radix l) := by
  have hds : dropSign (s :: l) = l := dropSign_cons_sign hs
  have hje : l.isEmpty = false := by
    rcases l with _ | ⟨c, r⟩
    · exact absurd rfl hne
    · rfl
  simp only [fromStrRadix, hds, hje, hall, Bool.not_false, Bool.and_self,
    if_true]
  rw [if_pos (by simp [hlo, hhi])]

theorem fromStrRadix_of_sign_not_digits {radix : Nat} {isDig : Char → Bool}
    {s : Char} {l : List Char} (hs : s = '-' ∨ s = '+')
    (hall : l.all isDig = false) :
    fromStrRadix radix isDig (s :: l) = none := by
  have hds : dropSign (s :: l) = l := dropSign_cons_sign hs
  simp only [fromStrRadix, hds, hall, Bool.and_false]
  rfl

theorem fromStrRadix_of_digits_out {radix : Nat} {isDig : Char → Bool}
    {l : List Char} (hminus : isDig '-' = false) (hplus : isDig '+' = false)
    (hne : l ≠ []) (hall : l.all isDig = true)
    (hout : ¬(i64Min ≤ (digitsVal radix l : Int) ∧
      (digitsVal radix l : Int) ≤ i64Max)) :
    fromStrRadix radix isDig l = none := by
  have hds : dropSign l = l := dropSign_of_all hminus hplus hall
  have hje : l.isEmpty = false := by
    rcases l with _ | ⟨c, r⟩
    · exact absurd rfl hne
    · rfl
  simp only [fromStrRadix, hds, signFactor_of_all hminus hall, hje, hall,
    Bool.not_false, Bool.and_self, if_true, one_mul]
  rw [if_neg (by
    simp only [Bool.and_eq_true, decide_eq_true_eq]
    exact hout)]

theorem fromStrRadix_of_sign_digits_out {radix : Nat} {isDig : Char → Bool}
    {s : Char} {l : List Char} (hs : s = '-' ∨ s = '+')
    (hne : l ≠ []) (hall : l.all isDig = true)
    (hout : ¬(i64Min ≤ signFactor (s :: l) * (digitsVal radix l : Int) ∧
      signFactor (s :: l) * (digitsVal radix l : Int) ≤ i64Max)) :
    fromStrRadix radix isDig (s :: l) = none := by
  have hds : dropSign (s :: l) = l := dropSign_cons_sign hs
  have hje : l.isEmpty = false := by
    rcases l with _ | ⟨c, r⟩
    · exact absurd rfl hne
    · rfl
  simp only [fromStrRadix, hds, hje, hall, Bool.not_false, Bool.and_self,
    if_true]
  rw [if_neg (by
    simp only [Bool.and_eq_true, decide_eq_true_eq]
    exact hout)]

theorem intLangVal_digits {l : List Char} (hall : l.all isDigitChar = true) :
    intLangVal l = digitsVal 10 l := by
  have h1 : signFactor l = 1 := signFactor_of_all (by decide) hall
  have h2 : dropSign l = l := dropSign_of_all (by decide) (by decide) hall
  simp only [intLangVal, h1, h2, intMag_digits hall, one_mul]

theorem intLangVal_sign_digits {s : Char} {l : List Char}
    (hs : s = '-' ∨ s = '+') (hall : l.all isDigitChar = true) :
    intLangVal (s :: l) = signFactor (s :: l) * digitsVal 10 l := by
  simp only [intLangVal, dropSign_cons_sign hs, intMag_digits hall]

theorem intLangVal_radix {b : Char} {r2 : List Char} (radix : Nat)
    (hsel : (radix = 2 ∧ (b = 'b' ∨ b = 'B')) ∨
            (radix = 8 ∧ (b = 'o' ∨ b = 'O')) ∨
            (radix = 16 ∧ (b = 'x' ∨ b = 'X'))) :
    intLangVal ('0' :: b :: r2) = digitsVal radix r2 := by
  have h1 : signFactor ('0' :: b :: r2) = 1 := by
    rw [signFactor_cons]
    rw [if_neg (by decide)]
  have h2 : dropSign ('0' :: b :: r2) = '0' :: b :: r2 := by
    simp [dropSign]
  simp only [intLangVal, h1, h2, intMag_radix radix hsel, one_mul]

theorem takeWhile_cons_false {p : Char → Bool} {c : Char} {r : List Char}
    (h : p c = false) : (c :: r).takeWhile p = [] := by
  simp [List.takeWhile_cons, h]

theorem takeWhile_append_all {p : Char → Bool} {m r : List Char}
    (h : m.all p = true) : (m ++ r).takeWhile p = m ++ r.takeWhile p := by
  induction m with
  | nil => simp
  | cons c t ih =>
      simp only [List.all_cons, Bool.and_eq_true] at h
      simp [List.takeWhile_cons, h.1, ih h.2]

theorem expTail_takeWhile {r : List Char} (h : expTail r = true) :
    r.takeWhile isDigitChar = [] := by
  rcases r with _ | ⟨c, rr⟩
  · rfl
  · simp only [expTail, Bool.and_eq_true] at h
    have hc : c = 'e' ∨ c = 'E' := by simpa using h.1
    have hd : isDigitChar c = false := by
      rcases hc with h2 | h2 <;> subst h2 <;> rfl
    exact takeWhile_cons_false hd

theorem decimalOk_digits {m r : List Char} (hne : m ≠ [])
    (hall : m.all isDigitChar = true) (hexp : expTail r = true) :
    decimalOk (m ++ r) = true := by
  have hds : (m ++ r).takeWhile isDigitChar = m := by
    rw [takeWhile_append_all hall, expTail_takeWhile hexp, List.append_nil]
  simp only [decimalOk, hds]
  rw [List.drop_left]
  rcases r with _ | ⟨c, rr⟩
  · simp [List.isEmpty_eq_false.mpr hne, hexp]
  · have hc : c = 'e' ∨ c = 'E' := by
      simp only [expTail, Bool.and_eq_true] at hexp
      simpa using hexp.1
    rcases hc with h | h <;> subst h <;>
      simp_all [List.isEmpty_eq_false.mpr hne]

theorem decimalOk_dot {frac r : List Char} (hne : frac ≠ [])
    (hfr : frac.all isDigitChar = true) (hexp : expTail r = true) :
    decimalOk ('.' :: (frac ++ r)) = true := by
  have h0 : ('.' :: (frac ++ r)).takeWhile isDigitChar = [] :=
    takeWhile_cons_false (by decide)
  have hfs : (frac ++ r).takeWhile isDigitChar = frac := by
    rw [takeWhile_append_all hfr, expTail_takeWhile hexp, List.append_nil]
  simp only [decimalOk, h0, List.length_nil, List.drop_zero, hfs]
  rw [List.drop_left]
  simp [hexp, List.length_pos.mpr hne]

theorem decimalOk_mid {ip frac r : List Char} (hip : ip ≠ [])
    (hipd : ip.all isDigitChar = true) (hfr : frac.all isDigitChar = true)
    (hexp : expTail r = true) :
    decimalOk (ip ++ '.' :: (frac ++ r)) = true := by
  have hds : (ip ++ '.' :: (frac ++ r)).takeWhile isDigitChar = ip := by
    rw [takeWhile_append_all hipd,
      takeWhile_cons_false (show isDigitChar '.' = false by decide),
      List.append_nil]
  have hfs : (frac ++ r).takeWhile isDigitChar = frac := by
    rw [takeWhile_append_all hfr, expTail_takeWhile hexp, List.append_nil]
  simp only [decimalOk, hds]
  rw [List.drop_left]
  simp only [hfs]
  rw [List.drop_left]
  simp [hexp, Nat.add_pos_left (List.length_pos.mpr hip)]

theorem mantissaOk_decimalOk {m r : List Char} (hm : mantissaOk m = true)
    (hexp : expTail r = true) : decimalOk (m ++ r) = true := by
  simp only [mantissaOk] at hm
  split at hm
  · rename_i frac
    rw [Bool.and_eq_true] at hm
    have hne : frac ≠ [] := by simpa using hm.1
    rw [List.cons_append]
    exact decimalOk_dot hne hm.2 hexp
  · rw [Bool.or_eq_true] at hm
    rcases hm with hm | hm
    · simp only [List.any_eq_true, List.mem_range] at hm
      obtain ⟨j, hj, hbody⟩ := hm
      rw [Bool.and_eq_true, Bool.and_eq_true] at hbody
      obtain ⟨⟨hj1, hip⟩, hrest⟩ := hbody
      split at hrest
      · rename_i frac heq
        have hjp : 0 < j := by simpa using hj1
        have hipne : m.take j ≠ [] := by
          have hlen : (m.take j).length = j := by
            rw [List.length_take]
            omega
          intro hnil
          rw [hnil] at hlen
          simp only [List.length_nil] at hlen
          omega
        have hm_eq : m = m.take j ++ '.' :: frac := by
          rw [← heq, List.take_append_drop]
        rw [hm_eq, List.append_assoc, List.cons_append]
        exact decimalOk_mid hipne hip hrest hexp
      · exact absurd hrest (by simp)
    · rw [Bool.and_eq_true] at hm
      have hne : m ≠ [] := by simpa using hm.1
      exact decimalOk_digits hne hm.2 hexp

theorem floatBody_decimalOk {b : List Char} (h : floatBody b = true) :
    decimalOk b = true := by
  simp only [floatBody, List.any_eq_true, List.mem_range] at h
  obtain ⟨k, hk, hb⟩ := h
  rw [Bool.and_eq_true, Bool.and_eq_true] at hb
  obtain ⟨h1, hman, hexp⟩ := hb
  have h2 := mantissaOk_decimalOk hman hexp
  rwa [List.take_append_drop] at h2

theorem rustF64Ok_of_floatLang {l : List Char} (h : floatLang l = true) :
    rustF64Ok l = true := by
  have hd : decimalOk (dropSign l) = true := floatBody_decimalOk h
  simp only [rustF64Ok, hd, Bool.or_true]

theorem all_digits_radix_false {mk : Char} (hmk : isDigitChar mk = false)
    (t : List Char) : ('0' :: mk :: t).all isDigitChar = false := by
  simp [List.all_cons, hmk]

theorem signedRadix_parse_none {l : List Char}
    (h : signedRadixForm l = true) :
    parse_basic_parameter ⟨l⟩ "int" = none := by
  rw [parse_int_unfold]
  rcases l with _ | ⟨s, rest⟩
  · exact absurd h (by decide)
  · simp only [signedRadixForm, hasSign, Bool.and_eq_true, Bool.or_eq_true,
      decide_eq_true_eq] at h
    obtain ⟨hs, hstarts⟩ := h
    have hd : dropSign (s :: rest) = rest := dropSign_cons_sign hs
    rw [hd] at hstarts
    have hs0 : s ≠ '0' := by
      rcases hs with h2 | h2 <;> subst h2 <;> decide
    simp only [startsWith2_cons_ne hs0, Bool.or_self]
    have hall : rest.all isDigitChar = false := by
      rcases hstarts with ((((h2 | h2) | h2) | h2) | h2) | h2 <;>
        (obtain ⟨t, ht⟩ := startsWith2_true h2
         rw [ht]
         exact all_digits_radix_false (by decide) t)
    show (parseI64 (s :: rest)).map GodotValue.int = none
    simp only [parseI64]
    rw [fromStrRadix_of_sign_not_digits hs hall]
    rfl

theorem radixBody_cases {l : List Char} (h : radixBody l = true) :
    ∃ b r2, l = '0' :: b :: r2 ∧
      (((b = 'b' ∨ b = 'B') ∧ r2 ≠ [] ∧ r2.all isBinChar = true) ∨
       ((b = 'o' ∨ b = 'O') ∧ r2 ≠ [] ∧ r2.all isOctChar = true) ∨
       ((b = 'x' ∨ b = 'X') ∧ r2 ≠ [] ∧ r2.all isHexChar = true)) := by
  unfold radixBody at h
  split at h
  · rename_i b r2
    refine ⟨b, r2, rfl, ?_⟩
    simp only [Bool.or_eq_true, Bool.and_eq_true, decide_eq_true_eq] at h
    rcases h with (⟨⟨hm, hne⟩, hall⟩ | ⟨⟨hm, hne⟩, hall⟩) | ⟨⟨hm, hne⟩, hall⟩
    · exact Or.inl ⟨hm, by simpa using hne, hall⟩
    · exact Or.inr (Or.inl ⟨hm, by simpa using hne, hall⟩)
    · exact Or.inr (Or.inr ⟨hm, by simpa using hne, hall⟩)
  · exact absurd h (by simp)

theorem intLang_parse_success {l : List Char} (hlang : intLang l = true)
    (hsrf : signedRadixForm l = false)
    (hlo : i64Min ≤ intLangVal l) (hhi : intLangVal l ≤ i64Max) :
    parse_basic_parameter ⟨l⟩ "int" =
      some (GodotValue.int (intLangVal l)) := by
  rw [parse_int_unfold]
  rcases l with _ | ⟨c, rest⟩
  · exact absurd hlang (by decide)
  · by_cases hc : c = '-' ∨ c = '+'
    · have hd : dropSign (c :: rest) = rest := dropSign_cons_sign hc
      have hlang2 : intBody rest = true := by
        have h3 : intLang (c :: rest) = intBody rest := by
          rw [intLang, hd]
        rwa [h3] at hlang
      rw [intBody, Bool.or_eq_true] at hlang2
      rcases hlang2 with hrad | hdig
      · exfalso
        obtain ⟨b, r2, heq, halt⟩ := radixBody_cases hrad
        subst heq
        have hsrf2 : signedRadixForm (c :: '0' :: b :: r2) = true := by
          rcases hc with h2 | h2 <;> subst h2 <;>
            rcases halt with ⟨hm, _, _⟩ | ⟨hm, _, _⟩ | ⟨hm, _, _⟩ <;>
              rcases hm with h3 | h3 <;> subst h3 <;>
                simp [signedRadixForm, hasSign, dropSign, startsWith2]
        rw [hsrf2] at hsrf
        exact absurd hsrf (by simp)
      · rw [Bool.and_eq_true] at hdig
        have hne : rest ≠ [] := by simpa using hdig.1
        have hall := hdig.2
        have hc0 : c ≠ '0' := by
          rcases hc with h2 | h2 <;> subst h2 <;> decide
        simp only [startsWith2_cons_ne hc0, Bool.or_self]
        show (parseI64 (c :: rest)).map GodotValue.int =
          some (GodotValue.int (intLangVal (c :: rest)))
        have hval : intLangVal (c :: rest) =
            signFactor (c :: rest) * digitsVal 10 rest :=
          intLangVal_sign_digits hc hall
        simp only [parseI64]
        rw [fromStrRadix_of_sign_digits hc hne hall (hval ▸ hlo) (hval ▸ hhi)]
        rw [Option.map_some']
        rw [hval]
    · have hnm : c ≠ '-' := fun h2 => hc (Or.inl h2)
      have hnp : c ≠ '+' := fun h2 => hc (Or.inr h2)
      have hd : dropSign (c :: rest) = c :: rest := by
        simp [dropSign, hnm, hnp]
      have hlang2 : intBody (c :: rest) = true := by
        have h3 : intLang (c :: rest) = intBody (c :: rest) := by
          rw [intLang, hd]
        rwa [h3] at hlang
      rw [intBody, Bool.or_eq_true] at hlang2
      rcases hlang2 with hrad | hdig
      · obtain ⟨b, r2, heq, halt⟩ := radixBody_cases hrad
        injection heq with h1 h2
        subst h1
        subst h2
        rcases halt with ⟨hm, hne, hall⟩ | ⟨hm, hne, hall⟩ | ⟨hm, hne, hall⟩
        · rcases hm with h3 | h3 <;> subst h3
          · rw [if_pos (by simp [startsWith2])]
            have hval : intLangVal ('0' :: 'b' :: r2) =
                digitsVal 2 r2 := intLangVal_radix 2 (Or.inl ⟨rfl, Or.inl rfl⟩)
            show (fromStrRadix 2 isBinChar r2).map GodotValue.int = _
            rw [fromStrRadix_of_digits (by decide) (by decide) hne hall
              (hval ▸ hlo) (hval ▸ hhi)]
            rw [Option.map_some', hval]
          · rw [if_pos (by simp [startsWith2])]
            have hval : intLangVal ('0' :: 'B' :: r2) =
                digitsVal 2 r2 :=
              intLangVal_radix 2 (Or.inl ⟨rfl, Or.inr rfl⟩)
            show (fromStrRadix 2 isBinChar r2).map GodotValue.int = _
            rw [fromStrRadix_of_digits (by decide) (by decide) hne hall
              (hval ▸ hlo) (hval ▸ hhi)]
            rw [Option.map_some', hval]
        · rcases hm with h3 | h3 <;> subst h3
          · rw [if_neg (by simp [startsWith2]), if_pos (by simp [startsWith2])]
            have hval : intLangVal ('0' :: 'o' :: r2) =
                digitsVal 8 r2 :=
              intLangVal_radix 8 (Or.inr (Or.inl ⟨rfl, Or.inl rfl⟩))
            show (fromStrRadix 8 isOctChar r2).map GodotValue.int = _
            rw [fromStrRadix_of_digits (by decide) (by decide) hne hall
              (hval ▸ hlo) (hval ▸ hhi)]
            rw [Option.map_some', hval]
          · rw [if_neg (by simp [startsWith2]), if_pos (by simp [startsWith2])]
            have hval : intLangVal ('0' :: 'O' :: r2) =
                digitsVal 8 r2 :=
              intLangVal_radix 8 (Or.inr (Or.inl ⟨rfl, Or.inr rfl⟩))
            show (fromStrRadix 8 isOctChar r2).map GodotValue.int = _
            rw [fromStrRadix_of_digits (by decide) (by decide) hne hall
              (hval ▸ hlo) (hval ▸ hhi)]
            rw [Option.map_some', hval]
        · rcases hm with h3 | h3 <;> subst h3
          · rw [if_neg (by simp [startsWith2]), if_neg (by simp [startsWith2]),
              if_pos (by simp [startsWith2])]
            have hval : intLangVal ('0' :: 'x' :: r2) =
                digitsVal 16 r2 :=
              intLangVal_radix 16 (Or.inr (Or.inr ⟨rfl, Or.inl rfl⟩))
            show (fromStrRadix 16 isHexChar r2).map GodotValue.int = _
            rw [fromStrRadix_of_digits (by decide) (by decide) hne hall
              (hval ▸ hlo) (hval ▸ hhi)]
            rw [Option.map_some', hval]
          · rw [if_neg (by simp [startsWith2]), if_neg (by simp [startsWith2]),
              if_pos (by simp [startsWith2])]
            have hval : intLangVal ('0' :: 'X' :: r2) =
                digitsVal 16 r2 :=
              intLangVal_radix 16 (Or.inr (Or.inr ⟨rfl, Or.inr rfl⟩))
            show (fromStrRadix 16 isHexChar r2).map GodotValue.int = _
            rw [fromStrRadix_of_digits (by decide) (by decide) hne hall
              (hval ▸ hlo) (hval ▸ hhi)]
            rw [Option.map_some', hval]
      · rw [Bool.and_eq_true] at hdig
        have hall := hdig.2
        have hsw : ∀ b2 : Char, isDigitChar b2 = false →
            startsWith2 (c :: rest) '0' b2 = false := fun b2 hb2 =>
          startsWith2_digits_false hall hb2
        rw [hsw 'b' (by decide), hsw 'B' (by decide), hsw 'o' (by decide),
          hsw 'O' (by decide), hsw 'x' (by decide), hsw 'X' (by decide)]
        simp only [Bool.or_self]
        show (parseI64 (c :: rest)).map GodotValue.int =
          some (GodotValue.int (intLangVal (c :: rest)))
        have hval : intLangVal (c :: rest) = digitsVal 10 (c :: rest) :=
          intLangVal_digits hall
        simp only [parseI64]
        rw [fromStrRadix_of_digits (by decide) (by decide) (by simp) hall
          (hval ▸ hlo) (hval ▸ hhi)]
        rw [Option.map_some']
        rw [hval]

theorem intLang_parse_overflow {l : List Char} (hlang : intLang l = true)
    (hsrf : signedRadixForm l = false)
    (hout : ¬(i64Min ≤ intLangVal l ∧ intLangVal l ≤ i64Max)) :
    parse_basic_parameter ⟨l⟩ "int" = none := by
  rw [parse_int_unfold]
  rcases l with _ | ⟨c, rest⟩
  · exact absurd hlang (by decide)
  · by_cases hc : c = '-' ∨ c = '+'
    · have hd : dropSign (c :: rest) = rest := dropSign_cons_sign hc
      have hlang2 : intBody rest = true := by
        have h3 : intLang (c :: rest) = intBody rest := by
          rw [intLang, hd]
        rwa [h3] at hlang
      rw [intBody, Bool.or_eq_true] at hlang2
      rcases hlang2 with hrad | hdig
      · exfalso
        obtain ⟨b, r2, heq, halt⟩ := radixBody_cases hrad
        subst heq
        have hsrf2 : signedRadixForm (c :: '0' :: b :: r2) = true := by
          rcases hc with h2 | h2 <;> subst h2 <;>
            rcases halt with ⟨hm, _, _⟩ | ⟨hm, _, _⟩ | ⟨hm, _, _⟩ <;>
              rcases hm with h3 | h3 <;> subst h3 <;>
                simp [signedRadixForm, hasSign, dropSign, startsWith2]
        rw [hsrf2] at hsrf
        exact absurd hsrf (by simp)
      · rw [Bool.and_eq_true] at hdig
        have hne : rest ≠ [] := by simpa using hdig.1
        have hall := hdig.2
        have hc0 : c ≠ '0' := by
          rcases hc with h2 | h2 <;> subst h2 <;> decide
        simp only [startsWith2_cons_ne hc0, Bool.or_self]
        show (parseI64 (c :: rest)).map GodotValue.int = none
        have hval : intLangVal (c :: rest) =
            signFactor (c :: rest) * digitsVal 10 rest :=
          intLangVal_sign_digits hc hall
        simp only [parseI64]
        rw [fromStrRadix_of_sign_digits_out hc hne hall (hval ▸ hout)]
        rfl
    · have hnm : c ≠ '-' := fun h2 => hc (Or.inl h2)
      have hnp : c ≠ '+' := fun h2 => hc (Or.inr h2)
      have hd : dropSign (c :: rest) = c :: rest := by
        simp [dropSign, hnm, hnp]
      have hlang2 : intBody (c :: rest) = true := by
        have h3 : intLang (c :: rest) = intBody (c :: rest) := by
          rw [intLang, hd]
        rwa [h3] at hlang
      rw [intBody, Bool.or_eq_true] at hlang2
      rcases hlang2 with hrad | hdig
      · obtain ⟨b, r2, heq, halt⟩ := radixBody_cases hrad
        injection heq with h1 h2
        subst h1
        subst h2
        rcases halt with ⟨hm, hne, hall⟩ | ⟨hm, hne, hall⟩ | ⟨hm, hne, hall⟩
        · rcases hm with h3 | h3 <;> subst h3
          · rw [if_pos (by simp [startsWith2])]
            have hval : intLangVal ('0' :: 'b' :: r2) =
                digitsVal 2 r2 := intLangVal_radix 2 (Or.inl ⟨rfl, Or.inl rfl⟩)
            show (fromStrRadix 2 isBinChar r2).map GodotValue.int = none
            rw [fromStrRadix_of_digits_out (by decide) (by decide) hne hall
              (hval ▸ hout)]
            rfl
          · rw [if_pos (by simp [startsWith2])]
            have hval : intLangVal ('0' :: 'B' :: r2) =
                digitsVal 2 r2 :=
              intLangVal_radix 2 (Or.inl ⟨rfl, Or.inr rfl⟩)
            show (fromStrRadix 2 isBinChar r2).map GodotValue.int = none
            rw [fromStrRadix_of_digits_out (by decide) (by decide) hne hall
              (hval ▸ hout)]
            rfl
        · rcases hm with h3 | h3 <;> subst h3
          · rw [if_neg (by simp [startsWith2]), if_pos (by simp [startsWith2])]
            have hval : intLangVal ('0' :: 'o' :: r2) =
                digitsVal 8 r2 :=
              intLangVal_radix 8 (Or.inr (Or.inl ⟨rfl, Or.inl rfl⟩))
            show (fromStrRadix 8 isOctChar r2).map GodotValue.int = none
            rw [fromStrRadix_of_digits_out (by decide) (by decide) hne hall
              (hval ▸ hout)]
            rfl
          · rw [if_neg (by simp [startsWith2]), if_pos (by simp [startsWith2])]
            have hval : intLangVal ('0' :: 'O' :: r2) =
                digitsVal 8 r2 :=
              intLangVal_radix 8 (Or.inr (Or.inl ⟨rfl, Or.inr rfl⟩))
            show (fromStrRadix 8 isOctChar r2).map GodotValue.int = none
            rw [fromStrRadix_of_digits_out (by decide) (by decide) hne hall
              (hval ▸ hout)]
            rfl
        · rcases hm with h3 | h3 <;> subst h3
          · rw [if_neg (by simp [startsWith2]), if_neg (by simp [startsWith2]),
              if_pos (by simp [startsWith2])]
            have hval : intLangVal ('0' :: 'x' :: r2) =
                digitsVal 16 r2 :=
              intLangVal_radix 16 (Or.inr (Or.inr ⟨rfl, Or.inl rfl⟩))
            show (fromStrRadix 16 isHexChar r2).map GodotValue.int = none
            rw [fromStrRadix_of_digits_out (by decide) (by decide) hne hall
              (hval ▸ hout)]
            rfl
          · rw [if_neg (by simp [startsWith2]), if_neg (by simp [startsWith2]),
              if_pos (by simp [startsWith2])]
            have hval : intLangVal ('0' :: 'X' :: r2) =
                digitsVal 16 r2 :=
              intLangVal_radix 16 (Or.inr (Or.inr ⟨rfl, Or.inr rfl⟩))
            show (fromStrRadix 16 isHexChar r2).map GodotValue.int = none
            rw [fromStrRadix_of_digits_out (by decide) (by decide) hne hall
              (hval ▸ hout)]
            rfl
      · rw [Bool.and_eq_true] at hdig
        have hall := hdig.2
        have hsw : ∀ b2 : Char, isDigitChar b2 = false →
            startsWith2 (c :: rest) '0' b2 = false := fun b2 hb2 =>
          startsWith2_digits_false hall hb2
        rw [hsw 'b' (by decide), hsw 'B' (by decide), hsw 'o' (by decide),
          hsw 'O' (by decide), hsw 'x' (by decide), hsw 'X' (by decide)]
        simp only [Bool.or_self]
        show (parseI64 (c :: rest)).map GodotValue.int = none
        have hval : intLangVal (c :: rest) = digitsVal 10 (c :: rest) :=
          intLangVal_digits hall
        simp only [parseI64]
        rw [fromStrRadix_of_digits_out (by decide) (by decide) (by simp) hall
          (hval ▸ hout)]
        rfl

theorem boolLang_parse_success {l : List Char} (h : boolLang l = true) :
    ∃ b, parse_basic_parameter ⟨l⟩ "bool" = some (GodotValue.bool b) := by
  simp only [boolLang, Bool.or_eq_true, decide_eq_true_eq] at h
  rcases h with ((((h | h) | h) | h) | h) | h
  · have h3 : l = "true".data := congrArg String.data h
    subst h3
    exact ⟨true, rfl⟩
  · have h3 : l = "false".data := congrArg String.data h
    subst h3
    exact ⟨false, rfl⟩
  · have h3 : l = "yes".data := congrArg String.data h
    subst h3
    exact ⟨true, rfl⟩
  · have h3 : l = "no".data := congrArg String.data h
    subst h3
    exact ⟨false, rfl⟩
  · have h3 : l = "1".data := congrArg String.data h
    subst h3
    exact ⟨true, rfl⟩
  · have h3 : l = "0".data := congrArg String.data h
    subst h3
    exact ⟨false, rfl⟩

/-- C2: parsing is total over the float and bool capture-group languages
(every captured float token parses as a Float value carrying that token,
every captured bool token parses as a Bool), but for int it is total
exactly on the members that are not sign-plus-radix-prefixed and whose
denoted value fits in the i64 range: such members parse to their denoted
integer, a member in that form whose value falls outside the i64 range
fails to parse, and every signed radix-prefixed member of the int group
language makes parse_basic_parameter fail (the Err branch is reachable
on both sides of the boundary). -/
theorem c2_primitive_parse_totality :
    (∀ l : List Char, floatLang l = true →
        parse_basic_parameter ⟨l⟩ "float" = some (GodotValue.float ⟨l⟩)) ∧
    (∀ l : List Char, boolLang l = true →
        ∃ b, parse_basic_parameter ⟨l⟩ "bool" = some (GodotValue.bool b)) ∧
    (∀ l : List Char, intLang l = true → signedRadixForm l = false →
        i64Min ≤ intLangVal l → intLangVal l ≤ i64Max →
        parse_basic_parameter ⟨l⟩ "int" =
          some (GodotValue.int (intLangVal l))) ∧
    (∀ l : List Char, intLang l = true → signedRadixForm l = false →
        ¬(i64Min ≤ intLangVal l ∧ intLangVal l ≤ i64Max) →
        parse_basic_parameter ⟨l⟩ "int" = none) ∧
    (∀ l : List Char, intLang l = true → signedRadixForm l = true →
        parse_basic_parameter ⟨l⟩ "int" = none) := by
  refine ⟨?_, ?_, ?_, ?_, ?_⟩
  · intro l h
    rw [parse_float_unfold, if_pos (rustF64Ok_of_floatLang h)]
  · intro l h
    exact boolLang_parse_success h
  · intro l h1 h2 h3 h4
    exact intLang_parse_success h1 h2 h3 h4
  · intro l h1 h2 h3
    exact intLang_parse_overflow h1 h2 h3
  · intro l h1 h2
    exact signedRadix_parse_none h2

/-- C2 counterexample: the token -0b1 is in the compiled int capture-group
language, yet parse_basic_parameter rejects it (the radix-prefix test runs
before the sign is stripped, so the token falls through to decimal i64
parsing, which chokes on the b). -/
theorem c2_counterexample :
    intLang "-0b1".data = true ∧
    parse_basic_parameter "-0b1" "int" = none := ⟨rfl, rfl⟩

/-- Closed witness for C2 at concrete tokens of each primitive type. -/
theorem c2_witness :
    (floatLang "-3.5e2".data = true ∧
      parse_basic_parameter "-3.5e2" "float" =
        some (GodotValue.float "-3.5e2")) ∧
    (boolLang "yes".data = true ∧
      ∃ b, parse_basic_parameter "yes" "bool" = some (GodotValue.bool b)) ∧
    (intLang "-42".data = true ∧ signedRadixForm "-42".data = false ∧
      parse_basic_parameter "-42" "int" =
        some (GodotValue.int (intLangVal "-42".data))) ∧
    (intLang "99999999999999999999".data = true ∧
      signedRadixForm "99999999999999999999".data = false ∧
      ¬(i64Min ≤ intLangVal "99999999999999999999".data ∧
        intLangVal "99999999999999999999".data ≤ i64Max) ∧
      parse_basic_parameter "99999999999999999999" "int" = none) ∧
    (intLang "-0x1F".data = true ∧ signedRadixForm "-0x1F".data = true ∧
      parse_basic_parameter "-0x1F" "int" = none) :=
  ⟨⟨by decide, c2_primitive_parse_totality.1 "-3.5e2".data (by decide)⟩,
   ⟨by decide, c2_primitive_parse_totality.2.1 "yes".data (by decide)⟩,
   ⟨by decide, by decide, c2_primitive_parse_totality.2.2.1 "-42".data
      (by decide) (by decide) (by decide) (by decide)⟩,
   ⟨by decide, by decide, by decide,
    c2_primitive_parse_totality.2.2.2.1 "99999999999999999999".data
      (by decide) (by decide) (by decide)⟩,
   ⟨by decide, by decide, c2_primitive_parse_totality.2.2.2.2 "-0x1F".data
      (by decide) (by decide)⟩⟩
